import Mathlib

/-!
# Verification of the BEE2.4 package object model and resolution engine

Shallow embedding of `src/packageLoader.py`: the property-tree operations it
relies on (the `srctools.Property` contract), the `ItemVariant.modify` variant
patch engine, the `setup_style_tree` item completion engine, the
`parse_package` duplicate-identifier handling, `Package.enabled`, and the
palette/volume rewriting in `Item._get_export_data`.

Conventions of the embedding:
* Python dicts (which preserve insertion order) are association lists with
  dict-insert semantics (`dictSet`: update in place, else append).
* `srctools.Property` is modelled as a tree of named leaves (string values)
  and named blocks (child lists); `name` is the casefolded name (here
  `casefold` below, adequate for the ASCII identifiers involved), while
  constructors store the real name.  `find_key` and the operations built on
  it (`__getitem__`, `__setitem__`, `__delitem__`, `ensure_exists`) are
  modelled as acting on the first child with a matching casefolded name; no
  theorem below depends on which duplicate occurrence is chosen.
* In-place mutation through aliases into the tree is rendered by pure
  update functions applied at the same positions.
* Object identity for the aliasing-related claims is rendered by explicit
  allocation tags (`Nat` refs) on the mutable fields of `ItemVariant`;
  every `.copy()` in the source allocates a fresh tag, a field that the
  source shares keeps the tag of the base object.
* Fallible code returns `Except LoadError`; the constructors record the data
  interpolated into the corresponding Python exception message.
-/

/-- ASCII casefolding (`str.casefold` on the ASCII identifiers involved),
written over the character list so that it evaluates inside the kernel. -/
def casefold (s : String) : String := ⟨s.data.map Char.toLower⟩

/-- ASCII whitespace, as `str.strip`/`int()` treat it. -/
def isSpaceChar (c : Char) : Bool :=
  c = ' ' ∨ c = '\t' ∨ c = '\n' ∨ c = '\r' ∨ c = '\x0b' ∨ c = '\x0c'

/-- `str.strip()`, written over the character list so that it evaluates
inside the kernel. -/
def strTrim (s : String) : String :=
  ⟨((s.data.dropWhile isSpaceChar).reverse.dropWhile isSpaceChar).reverse⟩

/-- `str.split(sep)` for a one-character separator (kernel-computable). -/
def splitCharAux (sep : Char) : List Char → List Char → List String
  | [], acc => [⟨acc.reverse⟩]
  | c :: cs, acc =>
    if c = sep then ⟨acc.reverse⟩ :: splitCharAux sep cs []
    else splitCharAux sep cs (c :: acc)

/-- `str.split(sep)` on a whole string. -/
def splitChar (sep : Char) (s : String) : List String :=
  splitCharAux sep s.data []

/-- `str.endswith(suffix)` (kernel-computable). -/
def strEndsWith (s suffix : String) : Bool :=
  suffix.data.isSuffixOf s.data

/-- `s[:-n]` — drop the last `n` characters (kernel-computable). -/
def strDropRight (s : String) (n : Nat) : String :=
  ⟨s.data.take (s.data.length - n)⟩

/-- `sep.join(parts)` (kernel-computable). -/
def strJoin (sep : String) : List String → String
  | [] => ""
  | [x] => x
  | x :: xs => x ++ sep ++ strJoin sep xs

/-- One node of a `srctools.Property` tree: a leaf holds a string value, a
block holds an ordered list of children.  The stored name is the real
(un-casefolded) name; `none` is Python's `name = None` (used for root blocks
and for the `<STYLE>` alias markers created by `Item.parse`). -/
inductive Property where
  | leaf (name : Option String) (value : String)
  | block (name : Option String) (children : List Property)
deriving Repr

namespace Property

/-- Structural decidable equality for the nested inductive. -/
def beqProp : Property → Property → Bool
  | .leaf n v, .leaf n' v' => n == n' && v == v'
  | .block n cs, .block n' cs' =>
    n == n' && go cs cs'
  | _, _ => false
where
  go : List Property → List Property → Bool
  | [], [] => true
  | c :: cs, c' :: cs' => beqProp c c' && go cs cs'
  | _, _ => false

theorem go_refl (cs : List Property)
    (h : ∀ c ∈ cs, beqProp c c = true) : beqProp.go cs cs = true := by
  induction cs with
  | nil => rfl
  | cons c cs ih =>
    simp only [beqProp.go, Bool.and_eq_true]
    exact ⟨h c (List.mem_cons_self c cs),
           ih (fun d hd => h d (List.mem_cons_of_mem c hd))⟩

theorem beqProp_refl : (p : Property) → beqProp p p = true
  | .leaf _ _ => by simp [beqProp]
  | .block _ cs => by
    simp only [beqProp, Bool.and_eq_true, beq_iff_eq, true_and]
    exact go_refl cs (fun c _ => beqProp_refl c)
termination_by p => sizeOf p
decreasing_by
  rename_i hc
  have := List.sizeOf_lt_of_mem hc
  simp only [Property.block.sizeOf_spec]
  omega

theorem go_eq (cs : List Property)
    (ih : ∀ c ∈ cs, ∀ q, beqProp c q = true → c = q) :
    ∀ cs', beqProp.go cs cs' = true → cs = cs' := by
  induction cs with
  | nil =>
    intro cs' h
    cases cs' with
    | nil => rfl
    | cons => simp [beqProp.go] at h
  | cons c cs ihl =>
    intro cs' h
    cases cs' with
    | nil => simp [beqProp.go] at h
    | cons c' cs'' =>
      simp only [beqProp.go, Bool.and_eq_true] at h
      rw [ih c (List.mem_cons_self c cs) c' h.1,
          ihl (fun d hd q hq => ih d (List.mem_cons_of_mem c hd) q hq) cs'' h.2]

theorem eq_of_beqProp : (p q : Property) → beqProp p q = true → p = q
  | .leaf _ _, .leaf _ _, h => by
    simp only [beqProp, Bool.and_eq_true, beq_iff_eq] at h
    simp [h.1, h.2]
  | .block n cs, .block n' cs', h => by
    simp only [beqProp, Bool.and_eq_true, beq_iff_eq] at h
    have hcs : cs = cs' :=
      go_eq cs (fun c _ q hq => eq_of_beqProp c q hq) cs' h.2
    rw [h.1, hcs]
  | .leaf _ _, .block _ _, h => by simp [beqProp] at h
  | .block _ _, .leaf _ _, h => by simp [beqProp] at h
termination_by p _ _ => sizeOf p
decreasing_by
  rename_i hc
  have := List.sizeOf_lt_of_mem hc
  simp only [Property.block.sizeOf_spec]
  omega

instance : DecidableEq Property := fun p q =>
  if h : beqProp p q = true then
    .isTrue (eq_of_beqProp p q h)
  else
    .isFalse (fun he => h (he ▸ beqProp_refl p))

/-- The real (as-written) name, Python's `real_name`. -/
def real_name : Property → Option String
  | .leaf n _ => n
  | .block n _ => n

/-- The casefolded name, Python's `.name` attribute. -/
def pname (p : Property) : Option String :=
  (p.real_name).map casefold

/-- The children of a block; a leaf has none. -/
def children : Property → List Property
  | .leaf _ _ => []
  | .block _ cs => cs

/-- Python `prop.has_children()`: whether the value is a child list. -/
def has_children : Property → Bool
  | .leaf _ _ => false
  | .block _ _ => true

/-- Does this node's casefolded name match `key` (itself casefolded)? -/
def nameIs (p : Property) (key : String) : Bool :=
  p.pname == some (casefold key)

/-- `find_all(key)`: every direct child whose name matches, in order. -/
def find_all (p : Property) (key : String) : List Property :=
  p.children.filter (fun c => c.nameIs key)

/-- `find_all(key1, key2)`: two-component path. -/
def find_all2 (p : Property) (k1 k2 : String) : List Property :=
  (p.find_all k1).flatMap (fun c => c.find_all k2)

/-- `find_all(key1, key2, key3)`: three-component path. -/
def find_all3 (p : Property) (k1 k2 k3 : String) : List Property :=
  (p.find_all k1).flatMap (fun c => c.find_all2 k2 k3)

/-- `find_children(key)`: the children of every matching child. -/
def find_children (p : Property) (key : String) : List Property :=
  (p.find_all key).flatMap children

/-- Python `key in prop`. -/
def hasKey (p : Property) (key : String) : Bool :=
  p.children.any (fun c => c.nameIs key)

/-- `find_key(key)` (first matching occurrence, see the header note). -/
def find_key (p : Property) (key : String) : Option Property :=
  p.children.find? (fun c => c.nameIs key)

/-- `prop[key]` when the matching child is a leaf: its string value.
A matching block child is treated as absent (Python would hand back the
child list itself, which every use below would subsequently choke on). -/
def firstVal (p : Property) (key : String) : Option String :=
  match p.find_key key with
  | some (.leaf _ v) => some v
  | _ => none

/-- `prop[key, default]` with a string default. -/
def getD (p : Property) (key default : String) : String :=
  (p.firstVal key).getD default

/-- `prop[key, default]` with a `None`-able default. -/
def getOpt (p : Property) (key : String) (default : Option String) :
    Option String :=
  (p.firstVal key).orElse (fun _ => default)

/-- `prop[key] = value`: replace the value of the first matching child
(keeping its real name), else append a new leaf. -/
def setItem (p : Property) (key value : String) : Property :=
  match p with
  | .leaf n v => .leaf n v
  | .block n cs => .block n (go cs)
where
  go : List Property → List Property
  | [] => [.leaf (some key) value]
  | c :: cs =>
    if c.nameIs key then .leaf c.real_name value :: cs
    else c :: go cs

/-- `del prop[key]`: remove the first matching child; `none` when no child
matches (Python raises `IndexError`). -/
def delItem (p : Property) (key : String) : Option Property :=
  match p with
  | .leaf _ _ => none
  | .block n cs =>
    if p.hasKey key then
      some (.block n (go cs))
    else
      none
where
  go : List Property → List Property
  | [] => []
  | c :: cs => if c.nameIs key then cs else c :: go cs

/-- `del prop[key]` with a silent fallback, for `except IndexError: pass`. -/
def delItemD (p : Property) (key : String) : Property :=
  (p.delItem key).getD p

/-- `while key in prop: del prop[key]` — remove every matching child. -/
def delAll (p : Property) (key : String) : Property :=
  match p with
  | .leaf n v => .leaf n v
  | .block n cs => .block n (cs.filter (fun c => !c.nameIs key))

/-- `prop.ensure_exists(key)` followed by in-place mutation of the returned
child: apply `f` to the first matching child, else to a freshly appended
empty block named `key`. -/
def ensureThen (p : Property) (key : String) (f : Property → Property) :
    Property :=
  match p with
  | .leaf n v => .leaf n v
  | .block n cs =>
    if p.hasKey key then .block n (go cs)
    else .block n (cs ++ [f (.block (some key) [])])
where
  go : List Property → List Property
  | [] => []
  | c :: cs => if c.nameIs key then f c :: cs else c :: go cs

/-- Map `f` over every direct child whose name matches `key`, in place. -/
def mapNamed (p : Property) (key : String) (f : Property → Property) :
    Property :=
  match p with
  | .leaf n v => .leaf n v
  | .block n cs =>
    .block n (cs.map (fun c => if c.nameIs key then f c else c))

/-- Append a child. -/
def append (p : Property) (c : Property) : Property :=
  match p with
  | .leaf n v => .leaf n v
  | .block n cs => .block n (cs ++ [c])

/-- Append several children (`prop += other`, Property concatenation). -/
def appendAll (p : Property) (cs' : List Property) : Property :=
  match p with
  | .leaf n v => .leaf n v
  | .block n cs => .block n (cs ++ cs')

end Property

/-- Python `int(s)` on the strings at issue: optional surrounding ASCII
whitespace, an optional sign, then a nonempty digit run (the `_` digit
grouping accepted by Python does not occur in these configs and is treated
as unparseable). `none` models `ValueError`. -/
def pyInt (s : String) : Option Int :=
  let t := strTrim s
  let core (u : List Char) : Option Nat :=
    if u ≠ [] ∧ u.all Char.isDigit then
      some (u.foldl (fun acc c => acc * 10 + (c.toNat - 48)) 0)
    else none
  match t.toList with
  | '-' :: rest => (core rest).map (fun n => -(n : Int))
  | '+' :: rest => (core rest).map (fun n => (n : Int))
  | l => (core l).map (fun n => (n : Int))

/-- Python list indexing `xs[i]`: negative indices count from the end;
`none` models `IndexError`. -/
def pyIndex {α : Type} (xs : List α) (i : Int) : Option α :=
  if 0 ≤ i then xs.get? i.toNat
  else
    let j := (xs.length : Int) + i
    if 0 ≤ j then xs.get? j.toNat else none

/-- The normalized (nonnegative) position selected by Python indexing. -/
def pyNorm (len : Nat) (i : Int) : Option Nat :=
  if 0 ≤ i then
    if i.toNat < len then some i.toNat else none
  else
    let j := (len : Int) + i
    if 0 ≤ j then if j.toNat < len then some j.toNat else none else none

/-- Association-list lookup (first match), the read side of a Python dict. -/
def dictFind {κ α : Type} [BEq κ] (d : List (κ × α)) (k : κ) : Option α :=
  (d.find? (fun e => e.1 == k)).map Prod.snd

/-- Python dict membership. -/
def dictMem {κ α : Type} [BEq κ] (d : List (κ × α)) (k : κ) : Bool :=
  d.any (fun e => e.1 == k)

/-- Python `d[k] = v`: update in place (keeping insertion position), else
append. -/
def dictSet {κ α : Type} [BEq κ] (d : List (κ × α)) (k : κ) (v : α) :
    List (κ × α) :=
  match d with
  | [] => [(k, v)]
  | e :: es => if e.1 == k then (k, v) :: es else e :: dictSet es k v

/-- `sep_values` from `packageLoader.py`: split on `,`/`;`/`/`, strip
whitespace, drop empties. -/
def sep_values (s : String) : List String :=
  if s = "" then []
  else
    ((splitChar ',' ⟨s.data.map (fun c =>
        if c = ';' ∨ c = '/' then ',' else c)⟩).map strTrim).filter
      (fun v => v ≠ "")

/-- `srctools.conv_bool` on the strings at issue: recognised truthy and
falsy literals, anything else gives the default. -/
def conv_bool (s : String) (default : Bool) : Bool :=
  let t := casefold s
  if t = "0" ∨ t = "no" ∨ t = "false" ∨ t = "n" ∨ t = "f" then false
  else if t = "1" ∨ t = "yes" ∨ t = "true" ∨ t = "y" ∨ t = "t" then true
  else default

/-- The data carried by the exceptions the embedded code can raise; each
constructor records exactly what the Python `Exception` message interpolates. -/
inductive LoadError where
  /-- `setup_style_tree`: `'Loop in bases for "{}"!'`. -/
  | loopInBases (styleId : String)
  /-- Fuel exhaustion marker for the base-chain walk; proved unreachable. -/
  | fuelOut
  /-- `setup_style_tree`: `'No base for "{}", in "{}" style.'`. -/
  | noBase (itemId styId : String)
  /-- `setup_style_tree`: `'Invalid style base ("{}") for "{}", in "{}" style.'`. -/
  | invalidStyleBase (base itemId styId : String)
  /-- `setup_style_tree`: `'Invalid style reference ("{}") for "{}", in "{}" style.'`. -/
  | invalidStyleRef (fromId itemId toId : String)
  /-- `AttributeError`: a delta's base slot held a `Property`, not an
  `ItemVariant`, and `.modify` was called on it. -/
  | attrError (styId : String)
  /-- `ItemVariant.modify`: `'Invalid index "{}" when modifying editoritems for {}'`. -/
  | invalidIndex (idx source : String)
  /-- An uncaught Python `KeyError` on a dict lookup. -/
  | keyError (key : String)
  /-- An uncaught Python `ValueError` (`list.remove` on a missing element). -/
  | valueError (what : String)
deriving Repr, DecidableEq

/-- Allocation tags standing for the object identity of each mutable
sub-structure of an `ItemVariant` (see the header note). -/
structure VariantRefs where
  editor : Nat
  editor_extra : Nat
  vbsp_config : Nat
  authors : Nat
  tags : Nat
  desc : Nat
  icons : Nat
deriving Repr, DecidableEq

/-- `ItemVariant`: data required for an item in a particular style.
`desc` models the `tkMarkdown.MarkdownData` by the text it was converted
from; `icons` is the `{name: value}` dict. -/
structure ItemVariant where
  editor : Property
  editor_extra : Property
  vbsp_config : Property
  source : String
  authors : List String
  tags : List String
  desc : String
  icons : List (String × String)
  ent_count : String
  url : Option String
  all_name : Option String
  all_icon : Option String
  refs : VariantRefs
deriving Repr, DecidableEq

/-- `desc_parse` from `packageLoader.py`: gather the lines of every
`description` block (children's values for block form, the value itself for
leaf form) and join them; `tkMarkdown.convert` is modelled as the joined
source text. -/
def desc_parse (info : Property) : String :=
  strJoin "\n"
    ((info.find_all "description").flatMap (fun prop =>
      match prop with
      | .leaf _ v => [v]
      | .block _ cs => cs.map (fun line =>
          match line with
          | .leaf _ v => v
          | .block _ _ => "")))

/-- Python truthiness of an optional string: `None` and `''` are falsy. -/
def truthy : Option String → Bool
  | none => false
  | some s => s ≠ ""

/-- The casefolded name of a palette/instances child, with Python's
`str(None)` spelling used when the name is absent (only relevant to the
text of the `Invalid index` message). -/
def childNameStr (p : Property) : String :=
  (p.pname).getD "None"

/-- `str.isdecimal()` on the casefolded name (adequate for ASCII digits). -/
def isDecimalName (p : Property) : Bool :=
  match p.pname with
  | none => false
  | some s => s ≠ "" && s.toList.all Char.isDigit

namespace ItemVariant

/-- The per-subtype mutations the `Palette` loop of `ItemVariant.modify`
performs in place on `subtypes[int(item.name)]`. -/
def applySubtypeDelta (item : Property) (st : Property) : Property :=
  -- Overriding model data: `Models` first, falling back to `Model`.
  let st :=
    match (item.find_key "Models").orElse (fun _ => item.find_key "Model") with
    | none => st
    | some model_prop =>
      let st := st.delAll "model"
      let models :=
        if model_prop.has_children then
          model_prop.children.map (fun prop =>
            match prop with
            | .leaf _ v => v
            | .block _ _ => "")
        else
          match model_prop with
          | .leaf _ v => [v]
          | .block _ _ => []
      models.foldl (fun st m =>
        st.append (.block (some "Model") [.leaf (some "ModelName") m])) st
  let st :=
    if truthy (item.getOpt "name" none) then
      st.setItem "name" (item.getD "name" "")
    else st
  let pal_icon := item.getOpt "icon" none
  let pal_name := item.getOpt "pal_name" none
  if truthy pal_name || truthy pal_icon then
    st.ensureThen "Palette" (fun palette =>
      let palette :=
        if truthy pal_name then palette.setItem "Tooltip" (pal_name.getD "")
        else palette
      if truthy pal_icon then palette.setItem "Image" (pal_icon.getD "")
      else palette)
  else st

/-- Replace the `idx`-th `SubType` block (counting across all `Editor`
blocks, in order, as `variant.editor.find_all('Editor', 'SubType')` does)
by `f` applied to it. -/
def updateSubType (editor : Property) (idx : Nat) (f : Property → Property) :
    Property :=
  match editor with
  | .leaf n v => .leaf n v
  | .block n cs => .block n ((goEd cs idx).1)
where
  goSub : List Property → Nat → List Property × Nat
  | [], i => ([], i)
  | c :: cs, i =>
    if c.nameIs "subtype" then
      let rest := goSub cs (i + 1)
      ((if i = idx then f c else c) :: rest.1, rest.2)
    else
      let rest := goSub cs i
      (c :: rest.1, rest.2)
  goEd : List Property → Nat → List Property × Nat
  | [], i => ([], i)
  | c :: cs, i =>
    if c.nameIs "editor" then
      match c with
      | .leaf n v =>
        let rest := goEd cs i
        (.leaf n v :: rest.1, rest.2)
      | .block n ccs =>
        let inner := goSub ccs i
        let rest := goEd cs inner.2
        (.block n inner.1 :: rest.1, rest.2)
    else
      let rest := goEd cs i
      (c :: rest.1, rest.2)

/-- The `for item in props.find_children('Palette')` loop of
`ItemVariant.modify`, threading the state it mutates: the copied editor
tree plus `all_name`, `all_icon` and the `icons` dict.  `nsub` is
`len(subtypes)`, fixed before the loop (the loop never adds or removes
`SubType` blocks). -/
def paletteLoop (source : String) (nsub : Nat) :
    List Property →
    Property × Option String × Option String × List (String × String) →
    Except LoadError
      (Property × Option String × Option String × List (String × String))
  | [], st => .ok st
  | item :: rest, (editor, all_name, all_icon, icons) =>
    let pal_icon := item.getOpt "icon" none
    let pal_name := item.getOpt "pal_name" none
    let bee2_icon := item.getOpt "bee2" none
    if item.pname == some "all" then
      -- The combined/grouped slot: replace the grouped name/icon metadata.
      let icons :=
        if truthy bee2_icon then dictSet icons "all" (bee2_icon.getD "")
        else icons
      paletteLoop source nsub rest (editor, pal_name, pal_icon, icons)
    else
      -- `subtypes[int(item.name)]`, with `ValueError`/`TypeError`/
      -- `IndexError` all mapped to the fatal invalid-index exception.
      let idx? :=
        match item.pname with
        | none => none
        | some s => (pyInt s).bind (fun i => pyNorm nsub i)
      match idx? with
      | none => .error (.invalidIndex (childNameStr item) source)
      | some j =>
        let editor := updateSubType editor j (applySubtypeDelta item)
        let icons :=
          if truthy bee2_icon then
            dictSet icons (item.pname.getD "") (bee2_icon.getD "")
          else icons
        paletteLoop source nsub rest (editor, all_name, all_icon, icons)

/-- The `for inst in props.find_children('Instances')` loop, acting on the
`Exporting → Instances` block of the copied editor. -/
def instancesLoop : List Property → Property → Property
  | [], insts => insts
  | inst :: rest, insts =>
    let insts := insts.delItemD (inst.real_name.getD "")
    let insts :=
      if inst.has_children || !(isDecimalName inst) then
        insts.append inst
      else
        insts.append
          (.block inst.real_name
            [.leaf (some "Name")
              (match inst with | .leaf _ v => v | .block _ _ => "")])
    instancesLoop rest insts

/-- `ItemVariant.modify(props, source)`: apply a config delta to this item
variant, producing a copy with palette/instance/config modifications.
`fresh` is the allocation tag supply: every structure the source copies
receives a tag from `fresh` upward, the `authors` list (which the source
does *not* copy when the delta leaves it untouched) keeps the base's tag. -/
def modify (self : ItemVariant) (props : Property) (source : String)
    (fresh : Nat) : Except LoadError ItemVariant :=
  let vbsp_config :=
    if props.hasKey "config" then
      -- Copy the block and clear its name (`vbsp_config.name = None`).
      match props.find_key "config" with
      | some (.block _ cs) => Property.block none cs
      | some (.leaf _ v) => Property.leaf none v
      | none => Property.block none []
    else self.vbsp_config
  let desc :=
    if props.hasKey "description" then desc_parse props else self.desc
  let authorsNew := props.hasKey "authors"
  let authors :=
    if authorsNew then sep_values (props.getD "authors" "") else self.authors
  let tags :=
    if props.hasKey "tags" then sep_values (props.getD "tags" "")
    else self.tags
  let nsub := (self.editor.find_all2 "editor" "subtype").length
  match paletteLoop source nsub (props.find_children "Palette")
      (self.editor, self.all_name, self.all_icon, self.icons) with
  | .error e => .error e
  | .ok (editor1, all_name, all_icon, icons) =>
    -- `variant.editor.ensure_exists('Exporting').ensure_exists('Instances')`
    -- runs before the loop, so the scaffolding appears even for an empty
    -- delta; the loop then mutates the `Instances` block in place.
    let editor2 := editor1.ensureThen "Exporting" (fun expo =>
      expo.ensureThen "Instances" (fun insts =>
        instancesLoop (props.find_children "Instances") insts))
    .ok {
      editor := editor2
      editor_extra := self.editor_extra
      vbsp_config := vbsp_config
      source := source ++ " from " ++ self.source
      authors := authors
      tags := tags
      desc := desc
      icons := icons
      ent_count := props.getD "ent_count" self.ent_count
      url := props.getOpt "url" self.url
      all_name := all_name
      all_icon := all_icon
      refs := {
        editor := fresh
        editor_extra := fresh + 1
        vbsp_config := fresh + 2
        authors := if authorsNew then fresh + 3 else self.refs.authors
        tags := fresh + 4
        desc := fresh + 5
        icons := fresh + 6 } }

end ItemVariant

/-- A `Style` as far as `setup_style_tree` consumes it: its id and optional
`base_style` parent reference (`None` when `base == ''`). -/
structure Style where
  id : String
  base_style : Option String
deriving Repr, DecidableEq

/-- `all_styles = {style.id: style for style in style_data}` — a Python dict
build, so a repeated id overwrites in place. -/
def buildAllStyles (style_data : List Style) : List (String × Style) :=
  style_data.foldl (fun d s => dictSet d s.id s) []

/-- `all_styles.get(b_style.base_style, None)`: the parent style object, or
`none` when `base_style` is `None` or names no known style. -/
def nextStyle (all_styles : List (String × Style)) (s : Style) :
    Option Style :=
  s.base_style.bind (fun b => dictFind all_styles b)

/-- The `while b_style is not None` walk that collects `style.bases`:
append each visited style, failing on a revisit.  Membership (`b_style in
base`) is object identity in Python; as every walked object comes out of
`all_styles`, whose values carry pairwise distinct ids, it coincides with
id equality, which is what is used here.  `fuel` makes the recursion
structural; `LoadError.fuelOut` is proved unreachable below. -/
def walkBases (all_styles : List (String × Style)) :
    Nat → Style → List Style → Except LoadError (List Style)
  | 0, _, _ => .error .fuelOut
  | fuel + 1, b_style, base =>
    if base.any (fun s => s.id == b_style.id) then
      .error (.loopInBases b_style.id)
    else
      let base := base ++ [b_style]
      match nextStyle all_styles b_style with
      | none => .ok base
      | some b2 => walkBases all_styles fuel b2 base

/-- The first loop of `setup_style_tree`: compute `style.bases` for every
style, in `all_styles` order. -/
def resolveBases (style_data : List Style) :
    Except LoadError (List (String × List Style)) :=
  let all_styles := buildAllStyles style_data
  go all_styles all_styles []
where
  go (all_styles : List (String × Style)) :
      List (String × Style) → List (String × List Style) →
      Except LoadError (List (String × List Style))
  | [], acc => .ok acc
  | (sid, style) :: rest, acc =>
    match walkBases all_styles (all_styles.length + 1) style [] with
    | .error e => .error e
    | .ok bases => go all_styles rest (acc ++ [(sid, bases)])

/-- One slot of a version's style map: either a concrete `ItemVariant` or a
`Property` (an alias marker `Property(None, target)` or a delta block). -/
inductive Slot where
  | variant (v : ItemVariant)
  | prop (p : Property)
deriving Repr, DecidableEq

/-- A version's data as `Item.parse` leaves it: the `vals` dict with its
`id`, ordered `styles` map, and the (style-name) `def_style` reference. -/
structure Version where
  id : String
  styles : List (String × Slot)
  def_style : String
deriving Repr, DecidableEq

/-- A version after `setup_style_tree` replaced `def_style` by the resolved
slot. -/
structure VersionOut where
  id : String
  styles : List (String × Slot)
  def_style : Slot
deriving Repr, DecidableEq

/-- An `Item` as far as `setup_style_tree` consumes it.  `def_ver` is the
version dict the default-version reference points at, rendered by its id
(the dicts in `versions` are pairwise distinct in content because each
holds its own `id`, so identity and value equality coincide). -/
structure Item where
  id : String
  versions : List (String × Version)
  def_ver : String
  unstyled : Bool
deriving Repr, DecidableEq

/-- The iteration order of the per-item version loop:
`all_ver.remove(item.def_ver); all_ver.insert(0, item.def_ver)` — the
default version first, the rest in original order.  `none` when the
default version is missing (Python's `list.remove` would raise
`ValueError`). -/
def orderedVersions (item : Item) : Option (Version × List Version) :=
  match dictFind item.versions item.def_ver with
  | none => none
  | some dv =>
    some (dv, (item.versions.filter (fun e => e.1 ≠ item.def_ver)).map
      Prod.snd)

/-- One step of the style-fill loop body for a missing style `sty_id`: walk
`style.bases` and copy the first definition found in the current style map;
otherwise fall back to the version's own default style (default version) or
to the default version's resolved slot (other versions). -/
def fillStyle (def_ver_styles : Option (List (String × Slot)))
    (def_style : String) (styles : List (String × Slot))
    (sty_id : String) (bases : List Style) :
    Except LoadError (List (String × Slot)) :=
  match bases.find? (fun b => dictMem styles b.id) with
  | some base_style =>
    match dictFind styles base_style.id with
    | some slot => .ok (dictSet styles sty_id slot)
    | none => .error (.keyError base_style.id)
  | none =>
    match def_ver_styles with
    | none =>
      -- `vers['id'] == item.def_ver['id']`: this is the default version.
      match dictFind styles def_style with
      | some slot => .ok (dictSet styles sty_id slot)
      | none => .error (.keyError def_style)
    | some dstyles =>
      match dictFind dstyles sty_id with
      | some slot => .ok (dictSet styles sty_id slot)
      | none => .error (.keyError sty_id)

/-- The `for sty_id, style in all_styles.items()` fill loop over one
version: styles already present are kept, missing ones are filled by
`fillStyle`.  `def_ver_styles` is `none` while processing the default
version itself. -/
def fillVersion (def_ver_styles : Option (List (String × Slot)))
    (def_style : String) (all_bases : List (String × List Style))
    (styles : List (String × Slot)) :
    Except LoadError (List (String × Slot)) :=
  match all_bases with
  | [] => .ok styles
  | (sty_id, bases) :: rest =>
    if dictMem styles sty_id then
      fillVersion def_ver_styles def_style rest styles
    else
      match fillStyle def_ver_styles def_style styles sty_id bases with
      | .error e => .error e
      | .ok styles' =>
        fillVersion def_ver_styles def_style rest styles'

/-- The delta/alias scan of the second pass: iterate the style map's keys in
order; record alias markers (`props.name is None`) into `style_lookups`,
and resolve modification blocks through `ItemVariant.modify` against their
(already live) `base` slot.  The map evolves during the scan exactly as the
Python dict does: only the key being visited is ever reassigned. -/
def resolveDeltas (item_id vers_id : String) (fresh : Nat) :
    List String → List (String × Slot) → List (String × String) →
    Except LoadError (List (String × Slot) × List (String × String) × Nat)
  | [], styles, lookups => .ok (styles, lookups, fresh)
  | sty_id :: rest, styles, lookups =>
    match dictFind styles sty_id with
    | none => resolveDeltas item_id vers_id fresh rest styles lookups
    | some (.variant _) =>
      -- Normal value, not a `Property`.
      resolveDeltas item_id vers_id fresh rest styles lookups
    | some (.prop p) =>
      match p.real_name with
      | none =>
        -- Style lookup marker: record it for the second sweep.
        let target := match p with | .leaf _ v => v | .block _ _ => ""
        resolveDeltas item_id vers_id fresh rest styles
          (lookups ++ [(sty_id, target)])
      | some _ =>
        -- A reference to another style, with a delta applied.
        let base := p.getD "base" ""
        if base = "" then .error (.noBase item_id sty_id)
        else
          match dictFind styles base with
          | none => .error (.invalidStyleBase base item_id sty_id)
          | some (.prop _) =>
            -- Python would call `.modify` on a `Property`: AttributeError.
            .error (.attrError sty_id)
          | some (.variant base_variant) =>
            let src := "<" ++ item_id ++ ":" ++ vers_id ++ "." ++ sty_id ++ ">"
            match base_variant.modify p src fresh with
            | .error e => .error e
            | .ok nv =>
              resolveDeltas item_id vers_id (fresh + 7) rest
                (dictSet styles sty_id (.variant nv)) lookups

/-- The second sweep: apply the recorded style lookups in recording order,
`vers['styles'][to_id] = vers['styles'][from_id]` on the live map. -/
def applyLookups (item_id : String) :
    List (String × String) → List (String × Slot) →
    Except LoadError (List (String × Slot))
  | [], styles => .ok styles
  | (to_id, from_id) :: rest, styles =>
    match dictFind styles from_id with
    | none => .error (.invalidStyleRef from_id item_id to_id)
    | some slot => applyLookups item_id rest (dictSet styles to_id slot)

/-- Process one version dict of one item: the fill loop, the delta/alias
resolution, and the final `def_style` fix-up. -/
def processVersion (all_bases : List (String × List Style)) (item : Item)
    (def_ver_styles : Option (List (String × Slot))) (v : Version)
    (fresh : Nat) : Except LoadError (VersionOut × Nat) :=
  match fillVersion def_ver_styles v.def_style all_bases v.styles with
  | .error e => .error e
  | .ok styles1 =>
    match resolveDeltas item.id v.id fresh (styles1.map Prod.fst) styles1
        [] with
    | .error e => .error e
    | .ok (styles2, lookups, fresh') =>
      match applyLookups item.id lookups styles2 with
      | .error e => .error e
      | .ok styles3 =>
        match dictFind styles3 v.def_style with
        | none => .error (.keyError v.def_style)
        | some dslot =>
          .ok ({ id := v.id, styles := styles3, def_style := dslot }, fresh')

/-- Process the non-default versions in order, after the default one. -/
def processRest (all_bases : List (String × List Style)) (item : Item)
    (def_done : VersionOut) (fresh : Nat) :
    List Version → Except LoadError (List VersionOut × Nat)
  | [] => .ok ([], fresh)
  | v :: rest =>
    match processVersion all_bases item (some def_done.styles) v fresh with
    | .error e => .error e
    | .ok (vo, fresh') =>
      match processRest all_bases item def_done fresh' rest with
      | .error e => .error e
      | .ok (vos, fresh'') => .ok (vo :: vos, fresh'')

/-- An item after completion: every version processed (default first, as the
loop runs them). -/
structure ItemOut where
  id : String
  versions : List VersionOut
deriving Repr, DecidableEq

/-- Process one item of the `for item in item_data` loop. -/
def processItem (all_bases : List (String × List Style)) (item : Item)
    (fresh : Nat) : Except LoadError (ItemOut × Nat) :=
  match orderedVersions item with
  | none => .error (.valueError item.def_ver)
  | some (def_v, rest) =>
    match processVersion all_bases item none def_v fresh with
    | .error e => .error e
    | .ok (def_done, fresh') =>
      match processRest all_bases item def_done fresh' rest with
      | .error e => .error e
      | .ok (vos, fresh'') =>
        .ok ({ id := item.id, versions := def_done :: vos }, fresh'')

/-- `setup_style_tree(item_data, style_data, ...)`: resolve every style's
base chain, then complete every item.  The two logging flags only control
non-fatal diagnostics and are not modelled. -/
def setup_style_tree (item_data : List Item) (style_data : List Style)
    (fresh : Nat) : Except LoadError (List ItemOut) :=
  match resolveBases style_data with
  | .error e => .error e
  | .ok all_bases => go all_bases item_data fresh
where
  go (all_bases : List (String × List Style)) :
      List Item → Nat → Except LoadError (List ItemOut)
  | [], _ => .ok []
  | item :: rest, fresh =>
    match processItem all_bases item fresh with
    | .error e => .error e
    | .ok (io, fresh') =>
      match go all_bases rest fresh' with
      | .error e => .error e
      | .ok ios => .ok (io :: ios)

/-- The data stored in `all_obj[comp_type]` for a declaration (the zip
handle is irrelevant here). -/
structure ObjData where
  info_block : Property
  pak_id : String
  disp_name : String
deriving Repr, DecidableEq

/-- The arguments queued for `pak_object.parse()` on an override. -/
structure ParseData where
  id : String
  info : Property
  pak_id : String
  is_override : Bool
deriving Repr, DecidableEq

/-- A package as `parse_package` consumes it. -/
structure Pack where
  id : String
  disp_name : String
  info : Property
deriving Repr, DecidableEq

/-- The registry the component-reading loops of `parse_package` mutate:
`all_obj` and `obj_override`, both per object type. -/
structure Registry where
  all_obj : List (String × List (String × ObjData))
  obj_override : List (String × List (String × List ParseData))
deriving Repr, DecidableEq

/-- `obj_override[comp_type][obj_id].append(pd)` on a `defaultdict(list)`. -/
def overAppend (ov : List (String × List ParseData)) (k : String)
    (pd : ParseData) : List (String × List ParseData) :=
  match dictFind ov k with
  | none => dictSet ov k [pd]
  | some l => dictSet ov k (l ++ [pd])

/-- The exact text of `Exception('ERROR! "' + obj_id + '" defined twice!')`. -/
def errDefinedTwice (obj_id : String) : String :=
  "ERROR! \x22" ++ obj_id ++ "\x22 defined twice!"

/-- The `for obj in pack.info.find_all("Overrides", comp_type)` loop. -/
def readOverrideBlocks (pack : Pack) (comp_type : String) :
    List Property → List (String × List ParseData) →
    Except String (List (String × List ParseData))
  | [], ov => .ok ov
  | obj :: rest, ov =>
    match obj.firstVal "id" with
    | none => .error "KeyError: id"
    | some obj_id =>
      readOverrideBlocks pack comp_type rest
        (overAppend ov obj_id ⟨obj_id, obj, pack.id, true⟩)

/-- The `for obj in pack.info.find_all(comp_type)` loop: register each
declaration, treating a repeated id as an override when the type allows
multiples and as the fatal duplicate exception when it does not. -/
def readObjBlocks (pack : Pack) (allow_dupes : Bool) :
    List Property → List (String × ObjData) ×
      List (String × List ParseData) →
    Except String (List (String × ObjData) × List (String × List ParseData))
  | [], st => .ok st
  | obj :: rest, (objs, ov) =>
    match obj.firstVal "id" with
    | none => .error "KeyError: id"
    | some obj_id =>
      if dictMem objs obj_id then
        if allow_dupes then
          -- Pretend this is an override; do not overwrite the original.
          readObjBlocks pack allow_dupes rest
            (objs, overAppend ov obj_id ⟨obj_id, obj, pack.id, true⟩)
        else
          .error (errDefinedTwice obj_id)
      else
        readObjBlocks pack allow_dupes rest
          (dictSet objs obj_id ⟨obj, pack.id, pack.disp_name⟩, ov)

/-- The component-reading phase of `parse_package`: for every registered
object type, queue the `Overrides` blocks, then register the type's own
declarations.  (The prerequisite check and the resource counting around it
do not touch the registry and are not part of this fragment.) -/
def parse_package (obj_types : List (String × Bool)) (pack : Pack)
    (reg : Registry) : Except String Registry :=
  match obj_types with
  | [] => .ok reg
  | (comp_type, allow_mult) :: rest =>
    let ov0 := (dictFind reg.obj_override comp_type).getD []
    let objs0 := (dictFind reg.all_obj comp_type).getD []
    match readOverrideBlocks pack comp_type
        (pack.info.find_all2 "overrides" comp_type) ov0 with
    | .error e => .error e
    | .ok ov1 =>
      match readObjBlocks pack allow_mult (pack.info.find_all comp_type)
          (objs0, ov1) with
      | .error e => .error e
      | .ok (objs1, ov2) =>
        parse_package rest pack
          { all_obj := dictSet reg.all_obj comp_type objs1
            obj_override := dictSet reg.obj_override comp_type ov2 }

/-- `CLEAN_PACKAGE`: the package that contains necessary components. -/
def CLEAN_PACKAGE : String := "BEE2_CLEAN_STYLE"

/-- A `Package` as far as the `enabled` property consumes it. -/
structure Package where
  id : String
deriving Repr, DecidableEq

/-- Modelled from the spec: `PACK_CONFIG` (from the external `packageMan`
module, not under `src/`) is a persisted configuration store; per the spec
a package's record carries a persisted enabled flag.  `get_bool` returns
the stored value for a section/key pair and the supplied default when the
key is absent (`bool_as_int`/`get_bool` round-trip booleans, so the store
is modelled holding booleans directly). -/
abbrev PackConfig := List ((String × String) × Bool)

/-- `PACK_CONFIG.get_bool(section, key, default)`. -/
def get_bool (cfg : PackConfig) (sect key : String) (default : Bool) :
    Bool :=
  match (cfg.find? (fun e => e.1.1 == sect && e.1.2 == key)).map
      Prod.snd with
  | none => default
  | some b => b

/-- The `Package.enabled` property getter. -/
def Package.enabled (self : Package) (cfg : PackConfig) : Bool :=
  if self.id == CLEAN_PACKAGE then
    -- The clean style package is special!  It must be present.
    true
  else
    get_bool cfg self.id "Enabled" true

/-- The exact `ValueError` message of `Package.set_enabled`. -/
def errCleanDisable : String := "The Clean Style package cannot be disabled!"

/-- `Package.set_enabled(value)`: the resulting store and the raised
`ValueError` message, if any. -/
def Package.set_enabled (self : Package) (cfg : PackConfig) (value : Bool) :
    PackConfig × Option String :=
  if self.id == CLEAN_PACKAGE then
    (cfg, some errCleanDisable)
  else
    (dictSet cfg (self.id, "Enabled") value, none)

/-- The palette-position dict of `_get_export_data`:
`{subitem: index for index, (item, subitem) in enumerate(pal_list)
  if item == self.id}` (a later equal subitem overwrites). -/
def paletteItems (pal_list : List (String × Nat)) (item_id : String) :
    List (Nat × Nat) :=
  (pal_list.enum.filter (fun e => e.2.1 == item_id)).foldl
    (fun d e => dictSet d e.2.2 e.1) []

/-- Map an error-producing transform over every `SubType` block, numbering
them across all `Editor` blocks in order as
`enumerate(new_editor.find_all("Editor", "Subtype"))` does. -/
def mapSubTypes (editor : Property)
    (f : Nat → Property → Except LoadError Property) :
    Except LoadError Property :=
  match editor with
  | .leaf n v => .ok (.leaf n v)
  | .block n cs =>
    match goEd cs 0 with
    | .error e => .error e
    | .ok (cs', _) => .ok (.block n cs')
where
  goSub : List Property → Nat → Except LoadError (List Property × Nat)
  | [], i => .ok ([], i)
  | c :: cs, i =>
    if c.nameIs "subtype" then
      match f i c with
      | .error e => .error e
      | .ok c' =>
        match goSub cs (i + 1) with
        | .error e => .error e
        | .ok (cs', i') => .ok (c' :: cs', i')
    else
      match goSub cs i with
      | .error e => .error e
      | .ok (cs', i') => .ok (c :: cs', i')
  goEd : List Property → Nat → Except LoadError (List Property × Nat)
  | [], i => .ok ([], i)
  | c :: cs, i =>
    if c.nameIs "editor" then
      match c with
      | .leaf n v =>
        match goEd cs i with
        | .error e => .error e
        | .ok (cs', i') => .ok (.leaf n v :: cs', i')
      | .block n ccs =>
        match goSub ccs i with
        | .error e => .error e
        | .ok (inner, i1) =>
          match goEd cs i1 with
          | .error e => .error e
          | .ok (cs', i') => .ok (.block n inner :: cs', i')
    else
      match goEd cs i with
      | .error e => .error e
      | .ok (cs', i') => .ok (c :: cs', i')

/-- The rewrite of one `Palette` block of a placed subtype: the grouped
icon/name substitution when exactly one subtype of the item is placed,
the `.vtf` → `.png` icon fix-up, and the `Position` grid coordinate
`(index mod 4, index div 4)`. -/
def rewritePalette (item_data : ItemVariant) (single : Bool) (pal_idx : Nat)
    (pal : Property) : Except LoadError Property :=
  let step :=
    if single then
      let pal1 :=
        match item_data.all_name with
        | some nm => pal.setItem "Tooltip" nm
        | none => pal
      let icon? :=
        match item_data.all_icon with
        | some ic => some ic
        | none => pal1.firstVal "Image"
      match icon? with
      | none => Except.error (LoadError.keyError "Image")
      | some icon =>
        -- Bug in Portal 2 - palette icons must end with '.png'.
        let icon :=
          if strEndsWith (casefold icon) ".vtf" then
            strDropRight icon 3 ++ "png"
          else icon
        Except.ok (pal1.setItem "Image" icon)
    else Except.ok pal
  match step with
  | .error e => .error e
  | .ok pal2 =>
    let x := pal_idx % 4
    let y := pal_idx / 4
    .ok (pal2.setItem "Position" (toString x ++ " " ++ toString y ++ " 0"))

/-- The per-subtype palette pass of `_get_export_data`: a placed subtype
has every `Palette` child rewritten (the manual index loop keeps going);
an unplaced subtype has its first `Palette` child deleted
(`del editor_section[editor_sec_index]` followed by `break`). -/
def exportSubTypePass (item_data : ItemVariant)
    (palette_items : List (Nat × Nat)) (idx : Nat) (st : Property) :
    Except LoadError Property :=
  match dictFind palette_items idx with
  | some pal_idx =>
    match st with
    | .leaf n v => .ok (.leaf n v)
    | .block n cs =>
      match goPlaced (rewritePalette item_data (palette_items.length == 1)
          pal_idx) cs with
      | .error e => .error e
      | .ok cs' => .ok (.block n cs')
  | none => .ok ((st.delItem "palette").getD st)
where
  goPlaced (f : Property → Except LoadError Property) :
      List Property → Except LoadError (List Property)
  | [] => .ok []
  | c :: cs =>
    if c.nameIs "palette" then
      match f c with
      | .error e => .error e
      | .ok c' =>
        match goPlaced f cs with
        | .error e => .error e
        | .ok cs' => .ok (c' :: cs')
    else
      match goPlaced f cs with
      | .error e => .error e
      | .ok cs' => .ok (c :: cs')

/-- The configured-default pass: for every `Editor → Properties` child
block, a property whose `BEE2_ignore` flag is unset and whose name appears
in the selection's overrides gets its `DefaultValue` replaced. -/
def applyPropOverrides (prop_overrides : List (String × String))
    (editor : Property) : Property :=
  editor.mapNamed "editor" (fun ed =>
    ed.mapNamed "properties" (fun sec =>
      match sec with
      | .leaf n v => .leaf n v
      | .block n cs =>
        .block n (cs.map (fun item_prop =>
          if conv_bool (item_prop.getD "bee2_ignore" "") false then
            item_prop
          else
            match item_prop.pname.bind (dictFind prop_overrides) with
            | some v => item_prop.setItem "DefaultValue" v
            | none => item_prop))))

/-- `Property.vec` on the integer-valued coordinates these claims concern:
parse three whitespace-separated integers, with the `Vec()` all-zero
default on anything else (fractional coordinates do not occur in the
inputs reasoned about below). -/
def parseVec (s : String) : Int × Int × Int :=
  match (splitChar ' ' s).filter (fun t => t ≠ "") with
  | [a, b, c] =>
    match pyInt a, pyInt b, pyInt c with
    | some x, some y, some z => (x, y, z)
    | _, _, _ => (0, 0, 0)
  | _ => (0, 0, 0)

/-- `Vec.bbox(a, b)`: componentwise minimum and maximum. -/
def vecBbox (a b : Int × Int × Int) :
    (Int × Int × Int) × (Int × Int × Int) :=
  ((min a.1 b.1, min a.2.1 b.2.1, min a.2.2 b.2.2),
   (max a.1 b.1, max a.2.1 b.2.1, max a.2.2 b.2.2))

/-- The integers from `a` to `b` inclusive. -/
def rangeIncl (a b : Int) : List Int :=
  if b < a then []
  else (List.range (b - a + 1).toNat).map (fun i => a + (i : Int))

/-- `Vec.iter_grid(bbox_min, bbox_max)`: every integer grid point of the
inclusive bounding box, x-outermost. -/
def iter_grid (mins maxs : Int × Int × Int) : List (Int × Int × Int) :=
  (rangeIncl mins.1 maxs.1).flatMap (fun x =>
    (rangeIncl mins.2.1 maxs.2.1).flatMap (fun y =>
      (rangeIncl mins.2.2 maxs.2.2).map (fun z => (x, y, z))))

/-- `str(pos)` for an integer-valued `Vec`. -/
def strVec (p : Int × Int × Int) : String :=
  toString p.1 ++ " " ++ toString p.2.1 ++ " " ++ toString p.2.2

/-- The warning for a `SurfaceVolume` without both corners. -/
def surfWarn (item_id : String) : String :=
  "Item " ++ item_id ++
    " has invalid OccupiedVoxels part (needs SubPos1 and SubPos2)!"

/-- The warning for a `Volume` without both corners. -/
def volWarn (item_id : String) : String :=
  "Item " ++ item_id ++ " has invalid OccupiedVoxels part (needs Pos1 and Pos2)!"

/-- Map a warning-collecting transform over the matching children. -/
def mapNamedW (p : Property) (key : String)
    (f : Property → Property × List String) : Property × List String :=
  match p with
  | .leaf n v => (.leaf n v, [])
  | .block n cs =>
    let step := cs.map (fun c => if c.nameIs key then f c else (c, []))
    (.block n (step.map Prod.fst), step.flatMap Prod.snd)

/-- The `SurfaceVolume` expansion (32-unit cube sections): a well-formed
region is renamed to `Voxel`, loses its corner keys and gains one
`Surface` entry per grid point; a malformed one is left untouched with a
non-fatal warning. -/
def surfaceVolumeExpand (item_id : String) (vp : Property) :
    Property × List String :=
  if !(vp.hasKey "subpos1") || !(vp.hasKey "subpos2") then
    (vp, [surfWarn item_id])
  else
    let bb := vecBbox (parseVec (vp.getD "subpos1" ""))
      (parseVec (vp.getD "subpos2" ""))
    let stripped := ((vp.delItemD "subpos1").delItemD "subpos2").children
    let surfaces := (iter_grid bb.1 bb.2).map (fun pos =>
      Property.block (some "Surface") [.leaf (some "Pos") (strVec pos)])
    (.block (some "Voxel") (stripped ++ surfaces), [])

/-- The full-block `Volume` expansion inside one `OccupiedVoxels` block:
every `Volume` child is removed; each well-formed one is replaced (at the
end, in order) by one `Voxel` copy per grid point carrying a `Pos` key,
each malformed one by nothing plus a non-fatal warning. -/
def volumeExpand (item_id : String) (ov : Property) :
    Property × List String :=
  match ov with
  | .leaf n v => (.leaf n v, [])
  | .block n cs =>
    let vols := cs.filter (fun c => c.nameIs "volume")
    let rest := cs.filter (fun c => !c.nameIs "volume")
    let step := vols.map (fun vp =>
      if !(vp.hasKey "pos1") || !(vp.hasKey "pos2") then
        (([] : List Property), [volWarn item_id])
      else
        let bb := vecBbox (parseVec (vp.getD "pos1" ""))
          (parseVec (vp.getD "pos2" ""))
        let base := Property.block (some "Voxel")
          ((vp.delItemD "pos1").delItemD "pos2").children
        ((iter_grid bb.1 bb.2).map (fun pos =>
          base.setItem "Pos" (strVec pos)), []))
    (.block n (rest ++ step.flatMap Prod.fst), step.flatMap Prod.snd)

/-- Both voxel-expansion passes of `_get_export_data` over the editor
block, collecting the non-fatal warnings they log. -/
def expandVoxels (item_id : String) (editor : Property) :
    Property × List String :=
  let pass1 := mapNamedW editor "exporting" (fun ex =>
    mapNamedW ex "occupiedvoxels" (fun ov =>
      mapNamedW ov "surfacevolume" (surfaceVolumeExpand item_id)))
  let pass2 := mapNamedW pass1.1 "exporting" (fun ex =>
    mapNamedW ex "occupiedvoxels" (volumeExpand item_id))
  (pass2.1, pass1.2 ++ pass2.2)

/-- `prop_a + prop_b` on root property blocks: concatenated children. -/
def Property.concat (a b : Property) : Property :=
  match a with
  | .leaf n v => .leaf n v
  | .block n cs => .block n (cs ++ b.children)

/-- An item as the export step consumes it: completed versions only. -/
structure ExpItem where
  id : String
  all_conf : Property
  versions : List (String × VersionOut)
deriving Repr, DecidableEq

/-- `Item._get_export_data(pal_list, ver_id, style_id, prop_conf)`: the
selected variant's editor block with palette placement applied, property
defaults overridden and volumetric shorthand expanded, plus the extra
editor blocks and the item's config; paired with the non-fatal warnings
logged along the way. -/
def _get_export_data (self : ExpItem) (pal_list : List (String × Nat))
    (ver_id style_id : String)
    (prop_conf : List (String × List (String × String))) :
    Except LoadError ((Property × Property × Property) × List String) :=
  let palette_items := paletteItems pal_list self.id
  match dictFind self.versions ver_id with
  | none => .error (.keyError ver_id)
  | some vers =>
    match dictFind vers.styles style_id with
    | none => .error (.keyError style_id)
    | some (.prop _) => .error (.attrError style_id)
    | some (.variant item_data) =>
      let new_editor := item_data.editor.setItem "type" self.id
      match mapSubTypes new_editor
          (exportSubTypePass item_data palette_items) with
      | .error e => .error e
      | .ok ed1 =>
        let prop_overrides := (dictFind prop_conf self.id).getD []
        let ed2 := applyPropOverrides prop_overrides ed1
        let ed3w := expandVoxels self.id ed2
        .ok ((ed3w.1, item_data.editor_extra,
          self.all_conf.concat item_data.vbsp_config), ed3w.2)

/-- `nextStyle` iterated `n` times (the `n`-fold ancestor, when defined). -/
def iterNext (all : List (String × Style)) : Nat → Style → Option Style
  | 0, s => some s
  | n + 1, s =>
    match nextStyle all s with
    | none => none
    | some t => iterNext all n t

/-- Acyclicity of the `base_style` graph over a style dict: no style reaches
itself again by following resolvable parent references. -/
def Acyclic (all : List (String × Style)) : Prop :=
  ∀ s ∈ all.map Prod.snd, ∀ n : Nat, 0 < n → iterNext all n s ≠ some s

/-- Sample allocation tags. -/
def mkRefs (n : Nat) : VariantRefs :=
  ⟨n, n + 1, n + 2, n + 3, n + 4, n + 5, n + 6⟩

/-- A small concrete `ItemVariant` whose content is keyed by `tag`, used as
input data for the concrete runs below. -/
def mkVar (tag : String) (n : Nat) : ItemVariant :=
  { editor := .block (some "Item") [.leaf (some "ItemClass") tag]
    editor_extra := .block none []
    vbsp_config := .block none []
    source := tag
    authors := [tag]
    tags := []
    desc := tag
    icons := []
    ent_count := "1"
    url := none
    all_name := none
    all_icon := none
    refs := mkRefs n }

/-- Styles for the alias-chain run: three independent styles. -/
def c1styles : List Style := [⟨"a", none⟩, ⟨"b", none⟩, ⟨"c", none⟩]

/-- An item declaring, in its only version, style `a` as the alias
`<b>`, style `b` as the alias `<c>`, and a concrete variant for `c` —
exactly what `Item.parse` produces for `styles { a "<b>" b "<c>" c ... }`. -/
def c1item : Item :=
  { id := "ITEM_X"
    versions := [("VER_DEFAULT",
      { id := "VER_DEFAULT"
        styles := [("a", .prop (.leaf none "b")),
                   ("b", .prop (.leaf none "c")),
                   ("c", .variant (mkVar "vc" 0))]
        def_style := "c" })]
    def_ver := "VER_DEFAULT"
    unstyled := false }

/-- The `Root ← Mid ← Leaf` style chain of the C2 scenario. -/
def c2styles : List Style :=
  [⟨"root", none⟩, ⟨"mid", some "root"⟩, ⟨"leaf", some "mid"⟩]

/-- The C2 item's default-version style map: definitions for `root` and
`mid` only. -/
def c2styles0 : List (String × Slot) :=
  [("root", .variant (mkVar "vroot" 0)), ("mid", .variant (mkVar "vmid" 10))]

/-- An empty delta block, as a `styled` modification without keys. -/
def emptyDelta : Property := .block (some "styled") []

/-- A base variant whose editor has no `Exporting` block. -/
def c3base : ItemVariant := mkVar "v3" 0

/-- A base variant whose editor already carries the
`Exporting → Instances` scaffolding. -/
def c3scaffolded : ItemVariant :=
  { mkVar "v3s" 0 with
    editor := .block (some "Item")
      [.leaf (some "ItemClass") "v3s",
       .block (some "Exporting")
        [.block (some "Instances") [.leaf (some "0") "inst.vmf"]]] }

/-- A delta whose `Palette` block uses the out-of-range index `5`. -/
def c8props : Property := .block (some "styled")
  [.block (some "Palette")
    [.block (some "5") [.leaf (some "pal_name") "Bad"]]]

/-- The two-subtype editor block of the C7 scenario, with the leaf values
left as parameters. -/
def c7editor (n0 s0 img0 n1 img1 : String) : Property :=
  .block (some "Item")
    [.block (some "Editor")
      [.block (some "SubType")
        [.leaf (some "Name") n0,
         .block (some "Palette") [.leaf (some "Image") img0],
         .leaf (some "Sounds") s0],
       .block (some "SubType")
        [.leaf (some "Name") n1,
         .block (some "Palette") [.leaf (some "Image") img1]]]]

/-- The corresponding completed item, ready for export. -/
def c7item (item_id n0 s0 img0 n1 img1 : String) : ExpItem :=
  { id := item_id
    all_conf := .block none []
    versions := [("VER_DEFAULT",
      { id := "VER_DEFAULT"
        styles := [("clean",
          .variant { mkVar "v7" 0 with
            editor := c7editor n0 s0 img0 n1 img1 })]
        def_style := .variant (mkVar "v7" 0) })] }

/-- A palette list placing only subtype 1 of `ITEM_P`, at index 5. -/
def c7pal : List (String × Nat) :=
  [("other", 0), ("other", 0), ("other", 0), ("other", 0), ("other", 0),
   ("ITEM_P", 1)]

/-- An `info.txt` declaring the same item id twice (identically). -/
def c5infoDup : Property := .block none
  [.block (some "Item") [.leaf (some "ID") "foo"],
   .block (some "Item") [.leaf (some "ID") "foo"]]

/-- An `info.txt` declaring two ids differing only in case. -/
def c5infoCase : Property := .block none
  [.block (some "Item") [.leaf (some "ID") "foo"],
   .block (some "Item") [.leaf (some "ID") "FOO"]]

/-- A two-style cycle: `x` based on `y`, `y` based on `x`. -/
def c4cyclic : List Style := [⟨"x", some "y"⟩, ⟨"y", some "x"⟩]

/-- A style whose `base_style` names no known style. -/
def c9dangling : List Style := [⟨"lone", some "MISSING"⟩]

theorem dictFind_dictSet_self {κ α : Type} [BEq κ] [LawfulBEq κ]
    (d : List (κ × α)) (k : κ) (v : α) :
    dictFind (dictSet d k v) k = some v := by
  induction d with
  | nil => simp [dictSet, dictFind]
  | cons e es ih =>
    by_cases h : (e.1 == k) = true
    · simp [dictSet, dictFind, h]
    · simp only [dictSet, h, Bool.false_eq_true, if_false]
      simpa [dictFind, List.find?, show (e.1 == k) = false by simpa using h]
        using ih

theorem dictFind_dictSet_ne {κ α : Type} [BEq κ] [LawfulBEq κ]
    (d : List (κ × α)) (k k' : κ) (v : α) (h : (k' == k) = false) :
    dictFind (dictSet d k v) k' = dictFind d k' := by
  induction d with
  | nil =>
    have h1 : (k == k') = false := by
      rw [beq_eq_false_iff_ne] at h ⊢
      exact fun e => h e.symm
    simp [dictSet, dictFind, List.find?, h1]
  | cons e es ih =>
    by_cases he : (e.1 == k) = true
    · have hek : e.1 = k := by simpa using he
      simp only [dictSet, he, if_true]
      have h1 : (k == k') = false := by
        rw [beq_eq_false_iff_ne] at h ⊢
        exact fun e => h e.symm
      simp [dictFind, List.find?, h1, hek]
    · simp only [dictSet, he, Bool.false_eq_true, if_false]
      by_cases he' : (e.1 == k') = true
      · simp [dictFind, List.find?, he']
      · simp only [dictFind, List.find?] at ih ⊢
        simp only [show (e.1 == k') = false by simpa using he']
        exact ih

theorem dictMem_eq_isSome {κ α : Type} [BEq κ] [LawfulBEq κ]
    (d : List (κ × α)) (k : κ) :
    dictMem d k = (dictFind d k).isSome := by
  induction d with
  | nil => simp [dictMem, dictFind]
  | cons e es ih =>
    by_cases he : (e.1 == k) = true
    · simp [dictMem, dictFind, List.find?, he]
    · simp only [dictMem, dictFind, List.find?, List.any_cons,
        show (e.1 == k) = false by simpa using he] at ih ⊢
      simpa using ih

theorem dictMem_dictSet {κ α : Type} [BEq κ] [LawfulBEq κ]
    (d : List (κ × α)) (k k' : κ) (v : α) :
    dictMem (dictSet d k v) k' = ((k == k') || dictMem d k') := by
  induction d with
  | nil => simp [dictSet, dictMem]
  | cons e es ih =>
    by_cases he : (e.1 == k) = true
    · have hek : e.1 = k := by simpa using he
      simp [dictSet, dictMem, he, hek]
    · simp only [dictSet, he, Bool.false_eq_true, if_false, dictMem,
        List.any_cons] at ih ⊢
      rw [ih]
      cases hkk : (k == k') <;> cases hek' : (e.1 == k') <;> simp

/-- C10: `Package.enabled` always returns `True` for the package whose id
is `BEE2_CLEAN_STYLE` regardless of the persisted configuration; attempting
to set that package's enabled flag raises `ValueError` while leaving the
configuration unchanged; for every other package the getter returns the
persisted `Enabled` config value, defaulting to `True` when absent. -/
theorem c10_clean_package_enabled (cfg : PackConfig) (p : Package) (v : Bool)
    (h : p.id ≠ CLEAN_PACKAGE) :
    Package.enabled ⟨CLEAN_PACKAGE⟩ cfg = true ∧
    Package.set_enabled ⟨CLEAN_PACKAGE⟩ cfg v = (cfg, some errCleanDisable) ∧
    (cfg.find? (fun e => e.1.1 == p.id && e.1.2 == "Enabled") = none →
      p.enabled cfg = true) ∧
    (∀ e, cfg.find? (fun e => e.1.1 == p.id && e.1.2 == "Enabled") = some e →
      p.enabled cfg = e.2) := by
  refine ⟨by simp [Package.enabled], by simp [Package.set_enabled], ?_, ?_⟩
  · intro hn
    simp [Package.enabled, get_bool, h, hn]
  · intro e he
    simp [Package.enabled, get_bool, h, he]

theorem c10_clean_package_enabled_witness :
    (Package.id ⟨"OTHER"⟩ ≠ CLEAN_PACKAGE) ∧
    Package.enabled ⟨CLEAN_PACKAGE⟩ [] = true ∧
    Package.set_enabled ⟨CLEAN_PACKAGE⟩ [] false = ([], some errCleanDisable) ∧
    Package.enabled ⟨"OTHER"⟩ [] = true := by
  have h := c10_clean_package_enabled [] ⟨"OTHER"⟩ false (by decide)
  exact ⟨by decide, h.1, h.2.1, h.2.2.1 rfl⟩

/-- C5 counterexample: the claim fails on the code in two ways.  The fatal
duplicate message names only the identifier — two different archives
(`PACK1` and `PACK2`) raise the *identical* message, so the archive is not
named.  And identifiers are matched case-SENSITIVELY at duplicate-detection
time: declaring `foo` and then `FOO` for a type that disallows multiples
raises no error at all, both are registered. -/
theorem c5_duplicate_claim_counterexample :
    parse_package [("item", false)] ⟨"PACK1", "P1", c5infoDup⟩ ⟨[], []⟩ =
      .error (errDefinedTwice "foo") ∧
    parse_package [("item", false)] ⟨"PACK1", "P1", c5infoDup⟩ ⟨[], []⟩ =
      parse_package [("item", false)] ⟨"PACK2", "P2", c5infoDup⟩ ⟨[], []⟩ ∧
    errDefinedTwice "foo" = "ERROR! \x22foo\x22 defined twice!" ∧
    (∃ reg, parse_package [("item", false)] ⟨"PACK1", "P1", c5infoCase⟩
        ⟨[], []⟩ = .ok reg) :=
  ⟨rfl, rfl, rfl, ⟨_, rfl⟩⟩

theorem readObjBlocks_preserves (pack : Pack) (am : Bool) :
    ∀ (blocks : List Property) (objs : List (String × ObjData))
      (ov : List (String × List ParseData))
      (objs' : List (String × ObjData)) (ov' : List (String × List ParseData)),
      readObjBlocks pack am blocks (objs, ov) = .ok (objs', ov') →
      ∀ k, dictMem objs k = true → dictFind objs' k = dictFind objs k := by
  intro blocks
  induction blocks with
  | nil =>
    intro objs ov objs' ov' h k hk
    simp only [readObjBlocks, Except.ok.injEq, Prod.mk.injEq] at h
    rw [h.1]
  | cons b rest ih =>
    intro objs ov objs' ov' h k hk
    simp only [readObjBlocks] at h
    cases hid : b.firstVal "id" with
    | none => rw [hid] at h; cases h
    | some obj_id =>
      rw [hid] at h
      dsimp only at h
      by_cases hmem : dictMem objs obj_id = true
      · rw [if_pos hmem] at h
        cases am with
        | true =>
          rw [if_pos rfl] at h
          exact ih objs _ objs' ov' h k hk
        | false =>
          rw [if_neg (by simp)] at h
          cases h
      · rw [if_neg hmem] at h
        have hne : (k == obj_id) = false := by
          rw [beq_eq_false_iff_ne]
          intro e
          exact hmem (e ▸ hk)
        have hk' : dictMem (dictSet objs obj_id ⟨b, pack.id, pack.disp_name⟩)
            k = true := by
          rw [dictMem_dictSet]
          simp [hk]
        have := ih _ _ objs' ov' h k hk'
        rw [this, dictFind_dictSet_ne _ _ _ _ hne]

/-- C5 (amended): during package parsing, a second declaration of the
*identical* (case-sensitively matched) identifier for an object type that
disallows multiple declarations raises the fatal `defined twice` error
naming the identifier (the offending archive is not part of the message);
for a type that allows multiples, the later same-ID declaration is queued
as an override and the original registration is never replaced. -/
theorem c5_duplicate_handling_amended (pack : Pack) (b : Property)
    (rest blocks : List Property) (objs : List (String × ObjData))
    (ov : List (String × List ParseData)) (obj_id : String)
    (hid : b.firstVal "id" = some obj_id)
    (hmem : dictMem objs obj_id = true) :
    readObjBlocks pack false (b :: rest) (objs, ov) =
      .error (errDefinedTwice obj_id) ∧
    readObjBlocks pack true (b :: rest) (objs, ov) =
      readObjBlocks pack true rest
        (objs, overAppend ov obj_id ⟨obj_id, b, pack.id, true⟩) ∧
    (∀ objs' ov', readObjBlocks pack true blocks (objs, ov) = .ok (objs', ov') →
      ∀ k, dictMem objs k = true → dictFind objs' k = dictFind objs k) := by
  refine ⟨?_, ?_, fun objs' ov' h k hk =>
    readObjBlocks_preserves pack true blocks objs ov objs' ov' h k hk⟩
  · simp [readObjBlocks, hid, hmem]
  · simp [readObjBlocks, hid, hmem]

theorem c5_duplicate_handling_amended_witness :
    ((Property.block (some "Item") [.leaf (some "ID") "foo"]).firstVal "id" =
      some "foo") ∧
    dictMem [("foo", (⟨.block none [], "Q", "Q"⟩ : ObjData))] "foo" = true ∧
    readObjBlocks ⟨"PACK1", "P1", .block none []⟩ false
      [.block (some "Item") [.leaf (some "ID") "foo"]]
      ([("foo", ⟨.block none [], "Q", "Q"⟩)], []) =
      .error (errDefinedTwice "foo") := by
  have h := c5_duplicate_handling_amended ⟨"PACK1", "P1", .block none []⟩
    (.block (some "Item") [.leaf (some "ID") "foo"]) [] []
    [("foo", ⟨.block none [], "Q", "Q"⟩)] [] "foo" rfl rfl
  exact ⟨rfl, rfl, h.1⟩

/-- C1 (failing run): on an item whose only version declares style `a` as
the alias `<b>`, style `b` as the alias `<c>` (in that order) and a
concrete variant for `c`, `setup_style_tree` completes without error but
leaves the raw alias marker `Property(None, "c")` in slot `a`: the
completed style map is NOT free of alias markers, contrary to the claim
and to the function's own docstring, which promises a definition for every
combination.  (The lookup pass copies `styles[a] := styles[b]` before `b`
itself has been resolved.) -/
theorem c1_alias_chain_left_unresolved :
    (setup_style_tree [c1item] c1styles 100).map (fun ios =>
      ios.map (fun io =>
        io.versions.map (fun vo => dictFind vo.styles "a"))) =
      .ok [[some (Slot.prop (Property.leaf none "c"))]] := rfl

/-- C9 counterexample: a style whose `base_style` names no known style
resolves successfully to the one-element chain `[itself]`, yet that final
chain element does have a parent reference (`base_style = "MISSING"`), so
"`bases[-1]` is a style with no parent" is false as stated. -/
theorem c9_dangling_base_counterexample :
    resolveBases c9dangling =
      .ok [("lone", [⟨"lone", some "MISSING"⟩])] ∧
    (Style.mk "lone" (some "MISSING")).base_style ≠ none :=
  ⟨rfl, by decide⟩

/-- C6: expanding an occupied-voxels region with corners `(0,0,0)` and
`(1,1,0)` produces exactly 4 expanded unit-cell entries — one per integer
grid point of the inclusive bounding box — appended after the surviving
children; a region missing a corner key yields the non-fatal warning and
zero expanded entries, with the rest of the block left untouched. -/
theorem c6_volume_expansion (item_id : String) (n : Option String)
    (rest : List Property)
    (hrest : ∀ c ∈ rest, c.nameIs "volume" = false) :
    volumeExpand item_id (.block n (rest ++
      [.block (some "Volume")
        [.leaf (some "Pos1") "0 0 0", .leaf (some "Pos2") "1 1 0"]])) =
      (.block n (rest ++
        [.block (some "Voxel") [.leaf (some "Pos") "0 0 0"],
         .block (some "Voxel") [.leaf (some "Pos") "0 1 0"],
         .block (some "Voxel") [.leaf (some "Pos") "1 0 0"],
         .block (some "Voxel") [.leaf (some "Pos") "1 1 0"]]), []) ∧
    (iter_grid (0, 0, 0) (1, 1, 0)).length = 4 ∧
    volumeExpand item_id (.block n (rest ++
      [.block (some "Volume") [.leaf (some "Pos1") "0 0 0"]])) =
      (.block n rest, [volWarn item_id]) := by
  have hnil : rest.filter (fun c => c.nameIs "volume") = [] :=
    List.filter_eq_nil_iff.2 (fun c hc => by simp [hrest c hc])
  have hself : rest.filter (fun c => !c.nameIs "volume") = rest :=
    List.filter_eq_self.2 (fun c hc => by simp [hrest c hc])
  refine ⟨?_, by decide, ?_⟩
  · simp only [volumeExpand]
    rw [List.filter_append, List.filter_append, hnil, hself]
    rw [show List.filter (fun c => !c.nameIs "volume")
        [Property.block (some "Volume")
          [Property.leaf (some "Pos1") "0 0 0",
           Property.leaf (some "Pos2") "1 1 0"]] = [] from rfl,
      List.append_nil]
    rfl
  · simp only [volumeExpand]
    rw [List.filter_append, List.filter_append, hnil, hself]
    rw [show List.filter (fun c => !c.nameIs "volume")
        [Property.block (some "Volume")
          [Property.leaf (some "Pos1") "0 0 0"]] = [] from rfl,
      List.append_nil]
    show (Property.block n (rest ++ ([] : List Property)),
      [volWarn item_id]) = _
    rw [List.append_nil]

theorem c6_volume_expansion_witness :
    (∀ c ∈ [Property.leaf (some "Other") "keep"], c.nameIs "volume" = false) ∧
    volumeExpand "ITEM_Z" (.block (some "OccupiedVoxels")
      [.leaf (some "Other") "keep",
       .block (some "Volume")
        [.leaf (some "Pos1") "0 0 0", .leaf (some "Pos2") "1 1 0"]]) =
      (.block (some "OccupiedVoxels")
        [.leaf (some "Other") "keep",
         .block (some "Voxel") [.leaf (some "Pos") "0 0 0"],
         .block (some "Voxel") [.leaf (some "Pos") "0 1 0"],
         .block (some "Voxel") [.leaf (some "Pos") "1 0 0"],
         .block (some "Voxel") [.leaf (some "Pos") "1 1 0"]], []) ∧
    volumeExpand "ITEM_Z" (.block (some "OccupiedVoxels")
      [.leaf (some "Other") "keep",
       .block (some "Volume") [.leaf (some "Pos1") "0 0 0"]]) =
      (.block (some "OccupiedVoxels") [.leaf (some "Other") "keep"],
       [volWarn "ITEM_Z"]) := by
  have h := c6_volume_expansion "ITEM_Z" (some "OccupiedVoxels")
    [Property.leaf (some "Other") "keep"] (by decide)
  exact ⟨by decide, h.1, h.2.2⟩

/-- C7 counterexample: exporting an item with two subtypes of which only
subtype 1 is placed does NOT omit subtype 0's editor fragment — the
`SubType` section survives (its name, sounds, etc. included); only its
`Palette` block is deleted.  The run below shows subtype 0's fragment
still present in the exported editor data. -/
theorem c7_unplaced_subtype_kept :
    _get_export_data (c7item "ITEM_P" "sub0" "snd" "i0.png" "sub1" "i1.png")
        c7pal "VER_DEFAULT" "clean" [] =
      .ok ((.block (some "Item")
        [.block (some "Editor")
          [.block (some "SubType")
            [.leaf (some "Name") "sub0", .leaf (some "Sounds") "snd"],
           .block (some "SubType")
            [.leaf (some "Name") "sub1",
             .block (some "Palette")
              [.leaf (some "Image") "i1.png",
               .leaf (some "Position") "1 1 0"]]],
         .leaf (some "type") "ITEM_P"],
        .block none [], .block none []), []) ∧
    (Property.block (some "SubType")
      [.leaf (some "Name") "sub0", .leaf (some "Sounds") "snd"]).nameIs
        "subtype" = true :=
  ⟨rfl, by decide⟩

/-- C7 (amended): when exporting an item with two subtypes of which only
subtype 1 is placed (at palette index `k`), the exported editor data keeps
subtype 0's section but strips its `Palette` block, and subtype 1's
palette `Position` is set from the palette index as grid coordinates
`(k mod 4, k div 4)`, formatted `"x y 0"`. -/
theorem c7_palette_export_amended (item_id n0 s0 img0 n1 : String)
    (pal_list : List (String × Nat)) (k : Nat)
    (hpal : paletteItems pal_list item_id = [(1, k)]) :
    _get_export_data (c7item item_id n0 s0 img0 n1 "i1.png") pal_list
        "VER_DEFAULT" "clean" [] =
      .ok ((.block (some "Item")
        [.block (some "Editor")
          [.block (some "SubType")
            [.leaf (some "Name") n0, .leaf (some "Sounds") s0],
           .block (some "SubType")
            [.leaf (some "Name") n1,
             .block (some "Palette")
              [.leaf (some "Image") "i1.png",
               .leaf (some "Position")
                (toString (k % 4) ++ " " ++ toString (k / 4) ++ " 0")]]],
         .leaf (some "type") item_id],
        .block none [], .block none []), []) := by
  simp only [_get_export_data, c7item, c7editor]
  rw [hpal]
  rfl

theorem c7_palette_export_amended_witness :
    paletteItems c7pal "ITEM_P" = [(1, 5)] ∧
    _get_export_data (c7item "ITEM_P" "sub0" "snd" "i0.png" "sub1" "i1.png")
        c7pal "VER_DEFAULT" "clean" [] =
      .ok ((.block (some "Item")
        [.block (some "Editor")
          [.block (some "SubType")
            [.leaf (some "Name") "sub0", .leaf (some "Sounds") "snd"],
           .block (some "SubType")
            [.leaf (some "Name") "sub1",
             .block (some "Palette")
              [.leaf (some "Image") "i1.png",
               .leaf (some "Position")
                (toString (5 % 4) ++ " " ++ toString (5 / 4) ++ " 0")]]],
         .leaf (some "type") "ITEM_P"],
        .block none [], .block none []), []) :=
  ⟨rfl, c7_palette_export_amended "ITEM_P" "sub0" "snd" "i0.png" "sub1"
    c7pal 5 rfl⟩

/-- C3 counterexample: applying `ItemVariant.modify` with an empty delta to
a base whose editor lacks the `Exporting` block yields a copy whose editor
content differs from the base's (`ensure_exists` appends empty
`Exporting`/`Instances` scaffolding before the delta is even consulted),
and whose `authors` list is the very list object of the base (equal
allocation tag): mutating the copy's authors would alter the base,
contrary to the claim's no-aliasing guarantee. -/
theorem c3_empty_delta_counterexample :
    (c3base.modify emptyDelta "<mod>" 50).map (fun w =>
      (w.editor == c3base.editor, w.refs.authors == c3base.refs.authors)) =
      .ok (false, true) := rfl

theorem ensureGo_eq (key : String) (f : Property → Property) :
    ∀ (cs : List Property) (c : Property),
      cs.find? (fun x => x.nameIs key) = some c → f c = c →
      Property.ensureThen.go key f cs = cs := by
  intro cs
  induction cs with
  | nil => intro c h _; cases h
  | cons c0 rest ih =>
    intro c h hf
    simp only [List.find?] at h
    by_cases h0 : c0.nameIs key = true
    · rw [h0] at h
      simp only [Option.some.injEq] at h
      subst h
      simp [Property.ensureThen.go, h0, hf]
    · rw [Bool.not_eq_true] at h0
      rw [h0] at h
      simp only [Property.ensureThen.go]
      rw [if_neg (by simp [h0]), ih c h hf]

theorem ensureThen_of_find_eq (p : Property) (key : String)
    (f : Property → Property) (c : Property)
    (hfind : p.find_key key = some c) (hf : f c = c) :
    p.ensureThen key f = p := by
  cases p with
  | leaf n v => rfl
  | block n cs =>
    have hmem := List.mem_of_find?_eq_some hfind
    have hpred := List.find?_some hfind
    have hkey : Property.hasKey (.block n cs) key = true := by
      simp only [Property.hasKey, Property.children, List.any_eq_true]
      exact ⟨c, hmem, hpred⟩
    simp only [Property.ensureThen, hkey, if_true]
    rw [ensureGo_eq key f cs c hfind hf]

/-- C3 (amended): `ItemVariant.modify` with an empty delta reproduces every
semantic field of the base (config, description, authors, tags, icons,
entity count, url, grouped name/icon, extra editor blocks); the editor
content is also reproduced *except* that empty `Exporting → Instances`
scaffolding is appended when absent (if the base editor already carries
it, the editor is reproduced exactly); and every mutable sub-structure of
the copy is freshly allocated *except* the authors list, which remains the
base's own list object (its allocation tag is preserved), so mutating the
copy's authors does alter the base. -/
theorem c3_empty_delta_amended (v : ItemVariant) (src : String)
    (fresh : Nat) :
    ∃ w, v.modify emptyDelta src fresh = .ok w ∧
      w.vbsp_config = v.vbsp_config ∧ w.desc = v.desc ∧
      w.authors = v.authors ∧ w.tags = v.tags ∧ w.icons = v.icons ∧
      w.ent_count = v.ent_count ∧ w.url = v.url ∧
      w.all_name = v.all_name ∧ w.all_icon = v.all_icon ∧
      w.editor_extra = v.editor_extra ∧
      w.editor = v.editor.ensureThen "Exporting" (fun ex =>
        ex.ensureThen "Instances" (fun insts => insts)) ∧
      (∀ e i, v.editor.find_key "Exporting" = some e →
        e.find_key "Instances" = some i → w.editor = v.editor) ∧
      w.refs = ⟨fresh, fresh + 1, fresh + 2, v.refs.authors,
        fresh + 4, fresh + 5, fresh + 6⟩ := by
  refine ⟨_, rfl, rfl, rfl, rfl, rfl, rfl, rfl, rfl, rfl, rfl, rfl, rfl,
    ?_, rfl⟩
  intro e i he hi
  show Property.ensureThen _ _ _ = _
  exact ensureThen_of_find_eq _ "Exporting" _ e he
    (ensureThen_of_find_eq e "Instances" _ i hi rfl)

theorem c3_empty_delta_amended_witness :
    (∃ w, c3scaffolded.modify emptyDelta "<m>" 50 = .ok w ∧
      w.editor = c3scaffolded.editor ∧
      w.authors = c3scaffolded.authors ∧
      w.refs.authors = c3scaffolded.refs.authors) := by
  obtain ⟨w, hok, -, -, hauth, -, -, -, -, -, -, -, -, himp, hrefs⟩ :=
    c3_empty_delta_amended c3scaffolded "<m>" 50
  refine ⟨w, hok, himp _ _ rfl rfl, hauth, ?_⟩
  rw [hrefs]

theorem paletteLoop_find_bad (src : String) (nsub : Nat) (c : Property) :
    ∀ (items : List Property)
      (st : Property × Option String × Option String ×
        List (String × String)),
      items.find? (fun x => !(x.pname == some "all") &&
        ((x.pname.bind pyInt).bind (fun i => pyNorm nsub i) == none)) =
        some c →
      ItemVariant.paletteLoop src nsub items st =
        .error (.invalidIndex (childNameStr c) src) := by
  intro items
  induction items with
  | nil => intro st h; cases h
  | cons item rest ih =>
    intro st h
    obtain ⟨editor, all_name, all_icon, icons⟩ := st
    simp only [List.find?] at h
    by_cases hall : (item.pname == some "all") = true
    · rw [show (!(item.pname == some "all") &&
          ((item.pname.bind pyInt).bind (fun i => pyNorm nsub i) == none)) =
          false by simp [hall]] at h
      simp only [ItemVariant.paletteLoop, hall, if_true]
      exact ih _ h
    · have hall' : (item.pname == some "all") = false := by
        simpa using hall
      by_cases hbad : ((item.pname.bind pyInt).bind
          (fun i => pyNorm nsub i) == none) = true
      · rw [show (!(item.pname == some "all") &&
            ((item.pname.bind pyInt).bind (fun i => pyNorm nsub i) ==
              none)) = true by simp [hall', hbad]] at h
        simp only [Option.some.injEq] at h
        subst h
        simp only [ItemVariant.paletteLoop, hall', Bool.false_eq_true,
          if_false]
        have hidx : (match item.pname with
            | none => none
            | some s => (pyInt s).bind (fun i => pyNorm nsub i)) =
            (none : Option Nat) := by
          cases hp : item.pname with
          | none => rfl
          | some s =>
            rw [hp] at hbad
            exact eq_of_beq hbad
        rw [hidx]
      · rw [show (!(item.pname == some "all") &&
            ((item.pname.bind pyInt).bind (fun i => pyNorm nsub i) ==
              none)) = false by simp [hbad]] at h
        simp only [ItemVariant.paletteLoop, hall', Bool.false_eq_true,
          if_false]
        have : ∃ j, (match item.pname with
            | none => none
            | some s => (pyInt s).bind (fun i => pyNorm nsub i)) = some j := by
          cases hp : item.pname with
          | none =>
            rw [hp] at hbad
            simp at hbad
          | some s =>
            rw [hp] at hbad
            have hx : (pyInt s).bind (fun i => pyNorm nsub i) ≠ none := by
              intro hx0
              rw [show ((some s).bind pyInt).bind (fun i => pyNorm nsub i) =
                (pyInt s).bind (fun i => pyNorm nsub i) from rfl, hx0] at hbad
              simp at hbad
            cases hj : (pyInt s).bind (fun i => pyNorm nsub i) with
            | none => exact absurd hj hx
            | some j => exact ⟨j, hj⟩
        obtain ⟨j, hj⟩ := this
        rw [hj]
        exact ih _ h

/-- C8: for every modify delta whose `Palette` block contains a child key
other than `all` that does not parse as a (Python-semantics, so possibly
negative) index of an existing subtype of the base variant's editor block,
`ItemVariant.modify` fails fatally with the `Invalid index` error carrying
that key and the source string — the entry is never silently skipped. -/
theorem c8_invalid_index_fatal (v : ItemVariant) (props : Property)
    (src : String) (fresh : Nat) (c : Property)
    (hfind : (props.find_children "Palette").find? (fun x =>
      !(x.pname == some "all") &&
      ((x.pname.bind pyInt).bind (fun i => pyNorm
        (v.editor.find_all2 "editor" "subtype").length i) == none)) =
      some c) :
    v.modify props src fresh = .error (.invalidIndex (childNameStr c) src) := by
  simp only [ItemVariant.modify]
  rw [paletteLoop_find_bad src _ c (props.find_children "Palette") _ hfind]

theorem c8_invalid_index_fatal_witness :
    ((c8props.find_children "Palette").find? (fun x =>
      !(x.pname == some "all") &&
      ((x.pname.bind pyInt).bind (fun i => pyNorm
        ((mkVar "v8" 0).editor.find_all2 "editor" "subtype").length i) ==
        none)) = some (.block (some "5") [.leaf (some "pal_name") "Bad"])) ∧
    (mkVar "v8" 0).modify c8props "<s>" 7 =
      .error (.invalidIndex "5" "<s>") := by
  refine ⟨by decide, ?_⟩
  have h := c8_invalid_index_fatal (mkVar "v8" 0) c8props "<s>" 7
    (.block (some "5") [.leaf (some "pal_name") "Bad"]) (by decide)
  simpa using h

theorem dictSet_mem {κ α : Type} [BEq κ] (d : List (κ × α)) (k : κ) (v : α) :
    ∀ e ∈ dictSet d k v, e ∈ d ∨ e = (k, v) := by
  induction d with
  | nil => intro e he; simp [dictSet] at he; simp [he]
  | cons e0 es ih =>
    intro e he
    simp only [dictSet] at he
    by_cases h0 : (e0.1 == k) = true
    · rw [if_pos h0] at he
      rcases List.mem_cons.1 he with h | h
      · right; exact h
      · left; exact List.mem_cons_of_mem e0 h
    · rw [if_neg h0] at he
      rcases List.mem_cons.1 he with h | h
      · left; exact h ▸ List.mem_cons_self e0 es
      · rcases ih e h with h' | h'
        · left; exact List.mem_cons_of_mem e0 h'
        · right; exact h'

theorem dictSet_keys {κ α : Type} [BEq κ] [LawfulBEq κ]
    (d : List (κ × α)) (k : κ) (v : α) :
    (dictSet d k v).map Prod.fst =
      (if dictMem d k then d.map Prod.fst else d.map Prod.fst ++ [k]) := by
  induction d with
  | nil => simp [dictSet, dictMem]
  | cons e0 es ih =>
    by_cases h0 : (e0.1 == k) = true
    · have hek := eq_of_beq h0
      simp [dictSet, dictMem, h0, hek]
    · simp only [dictSet, h0, Bool.false_eq_true, if_false, List.map_cons,
        dictMem, List.any_cons, Bool.false_or, ih]
      by_cases hm : dictMem es k
      · simp [dictMem] at hm
        simp [hm]
      · simp only [dictMem] at hm
        simp [hm]

theorem buildAllStyles_idkey (style_data : List Style) :
    ∀ e ∈ buildAllStyles style_data, e.2.id = e.1 := by
  suffices h : ∀ (acc : List (String × Style)),
      (∀ e ∈ acc, e.2.id = e.1) →
      ∀ e ∈ style_data.foldl (fun d s => dictSet d s.id s) acc,
        e.2.id = e.1 by
    exact h [] (by simp)
  induction style_data with
  | nil => intro acc hacc e he; exact hacc e he
  | cons s ss ih =>
    intro acc hacc e he
    refine ih (dictSet acc s.id s) ?_ e he
    intro e' he'
    rcases dictSet_mem acc s.id s e' he' with h | h
    · exact hacc e' h
    · rw [h]

theorem buildAllStyles_nodupKeys (style_data : List Style) :
    ((buildAllStyles style_data).map Prod.fst).Nodup := by
  suffices h : ∀ (acc : List (String × Style)),
      (acc.map Prod.fst).Nodup →
      ((style_data.foldl (fun d s => dictSet d s.id s) acc).map
        Prod.fst).Nodup by
    exact h [] (by simp)
  induction style_data with
  | nil => intro acc hacc; exact hacc
  | cons s ss ih =>
    intro acc hacc
    refine ih (dictSet acc s.id s) ?_
    rw [dictSet_keys]
    by_cases hm : dictMem acc s.id
    · simpa [hm] using hacc
    · simp only [hm, Bool.false_eq_true, if_false]
      rw [List.nodup_append]
      refine ⟨hacc, List.nodup_singleton _, ?_⟩
      intro a ha hb
      simp only [List.mem_singleton] at hb
      subst hb
      simp only [dictMem, List.any_eq_true] at hm
      simp only [List.mem_map] at ha
      obtain ⟨e, he, hek⟩ := ha
      exact hm ⟨e, he, by simp [hek]⟩

theorem dictFind_of_mem_nodup {κ α : Type} [BEq κ] [LawfulBEq κ]
    (d : List (κ × α)) (hnd : (d.map Prod.fst).Nodup) (k : κ) (v : α)
    (hmem : (k, v) ∈ d) : dictFind d k = some v := by
  induction d with
  | nil => cases hmem
  | cons e es ih =>
    rcases List.mem_cons.1 hmem with h | h
    · subst h
      simp [dictFind, List.find?]
    · simp only [List.map_cons, List.nodup_cons] at hnd
      have hne : (e.1 == k) = false := by
        rw [beq_eq_false_iff_ne]
        intro hek
        exact hnd.1 (hek ▸ List.mem_map_of_mem Prod.fst h)
      simp only [dictFind, List.find?, hne]
      exact ih hnd.2 h

theorem dictFind_mem {κ α : Type} [BEq κ] [LawfulBEq κ]
    (d : List (κ × α)) (k : κ) (v : α) (h : dictFind d k = some v) :
    (k, v) ∈ d := by
  induction d with
  | nil => cases h
  | cons e es ih =>
    simp only [dictFind, List.find?] at h
    by_cases he : (e.1 == k) = true
    · rw [he] at h
      simp only [Option.map_some, Option.some.injEq] at h
      have : e = (k, v) := by
        cases e
        simp only [Prod.mk.injEq]
        exact ⟨by simpa using he, by simpa using h⟩
      rw [← this]
      exact List.mem_cons_self e es
    · rw [show (e.1 == k) = false by simpa using he] at h
      exact List.mem_cons_of_mem e (ih h)

/-- The target of a resolvable parent reference is a registered style
carrying its own key as id. -/
theorem nextStyle_mem (all : List (String × Style)) (s t : Style)
    (hkv : ∀ e ∈ all, e.2.id = e.1) (h : nextStyle all s = some t) :
    (t.id, t) ∈ all := by
  simp only [nextStyle, Option.bind] at h
  cases hb : s.base_style with
  | none => rw [hb] at h; cases h
  | some b =>
    rw [hb] at h
    have hmem := dictFind_mem all b t h
    have := hkv (b, t) hmem
    simp only at this
    rwa [this]

theorem filter_length_mono {α : Type} (l : List α) (p q : α → Bool)
    (himp : ∀ x, q x = true → p x = true) :
    (l.filter q).length ≤ (l.filter p).length := by
  induction l with
  | nil => simp
  | cons a t ih =>
    by_cases hq : q a = true
    · simp only [List.filter_cons, hq, himp a hq, if_true, List.length_cons]
      omega
    · simp only [List.filter_cons, show q a = false by simpa using hq,
        Bool.false_eq_true, if_false]
      by_cases hp : p a = true
      · simp only [hp, if_true, List.length_cons]
        omega
      · simp only [show p a = false by simpa using hp, Bool.false_eq_true,
          if_false]
        exact ih

theorem filter_length_lt {α : Type} (l : List α) (p q : α → Bool)
    (himp : ∀ x, q x = true → p x = true) (x : α) (hx : x ∈ l)
    (hpx : p x = true) (hqx : q x = false) :
    (l.filter q).length < (l.filter p).length := by
  induction l with
  | nil => cases hx
  | cons a t ih =>
    rcases List.mem_cons.1 hx with h | h
    · subst h
      simp only [List.filter_cons, hqx, hpx, if_true, Bool.false_eq_true,
        if_false, List.length_cons]
      have := filter_length_mono t p q himp
      omega
    · by_cases hq : q a = true
      · simp only [List.filter_cons, hq, himp a hq, if_true,
          List.length_cons]
        have := ih h
        omega
      · simp only [List.filter_cons, show q a = false by simpa using hq,
          Bool.false_eq_true, if_false]
        by_cases hp : p a = true
        · simp only [hp, if_true, List.length_cons]
          have := ih h
          omega
        · simp only [show p a = false by simpa using hp, Bool.false_eq_true,
            if_false]
          exact ih h

/-- The number of registered style ids not yet on the walk's visited list:
the strictly decreasing measure of the base-chain walk. -/
def freeCount (all : List (String × Style)) (acc : List Style) : Nat :=
  ((all.map Prod.fst).filter
    (fun k => !(acc.any (fun s => s.id == k)))).length

theorem freeCount_append (all : List (String × Style)) (acc : List Style)
    (b : Style) (hb : b.id ∈ all.map Prod.fst)
    (hnew : acc.any (fun s => s.id == b.id) = false) :
    freeCount all (acc ++ [b]) < freeCount all acc := by
  refine filter_length_lt _ _ _ ?_ b.id hb ?_ ?_
  · intro x hx
    simp only [Bool.not_eq_true', List.any_eq_false] at hx ⊢
    intro s hs
    exact hx s (List.mem_append_left _ hs)
  · simp only [Bool.not_eq_true', List.any_eq_false]
    intro s hs
    simp only [List.any_eq_false] at hnew
    exact hnew s hs
  · simp only [Bool.not_eq_false', List.any_eq_true]
    exact ⟨b, List.mem_append_right _ (List.mem_singleton_self b), by simp⟩

/-- Every outcome of the walk is a chain, a loop failure, or fuel
exhaustion. -/
theorem walkBases_shape (all : List (String × Style)) :
    ∀ (fuel : Nat) (b : Style) (acc : List Style),
      (∃ r, walkBases all fuel b acc = .ok r) ∨
      (∃ i, walkBases all fuel b acc = .error (.loopInBases i)) ∨
      walkBases all fuel b acc = .error .fuelOut := by
  intro fuel
  induction fuel with
  | zero => intro b acc; right; right; rfl
  | succ n ih =>
    intro b acc
    simp only [walkBases]
    by_cases hb : acc.any (fun s => s.id == b.id) = true
    · rw [if_pos hb]
      right; left; exact ⟨b.id, rfl⟩
    · rw [if_neg hb]
      cases hnext : nextStyle all b with
      | none => left; exact ⟨acc ++ [b], rfl⟩
      | some b2 => exact ih b2 (acc ++ [b])

/-- With fuel exceeding the number of unvisited registered styles, the walk
never exhausts its fuel — the loop always terminates. -/
theorem walkBases_no_fuelOut (all : List (String × Style))
    (hkv : ∀ e ∈ all, e.2.id = e.1) :
    ∀ (fuel : Nat) (b : Style) (acc : List Style),
      b.id ∈ all.map Prod.fst → freeCount all acc < fuel →
      walkBases all fuel b acc ≠ .error .fuelOut := by
  intro fuel
  induction fuel with
  | zero => intro b acc _ hlt; omega
  | succ n ih =>
    intro b acc hb hlt
    simp only [walkBases]
    by_cases hany : acc.any (fun s => s.id == b.id) = true
    · rw [if_pos hany]
      intro h; cases h
    · rw [if_neg hany]
      cases hnext : nextStyle all b with
      | none => intro h; cases h
      | some b2 =>
        have hb2 : b2.id ∈ all.map Prod.fst :=
          List.mem_map_of_mem Prod.fst (nextStyle_mem all b b2 hkv hnext)
        have hdec := freeCount_append all acc b hb
          (by simpa using hany)
        exact ih b2 (acc ++ [b]) hb2 (by omega)

/-- A successful walk returns the visited prefix plus a chain starting at
the current style, linked by resolvable parent references and ending at a
style whose parent reference is unresolvable. -/
theorem walkBases_ok_chain (all : List (String × Style)) :
    ∀ (fuel : Nat) (b : Style) (acc r : List Style),
      walkBases all fuel b acc = .ok r →
      ∃ tail, r = acc ++ tail ∧ tail.head? = some b ∧
        List.Chain' (fun x y => nextStyle all x = some y) tail ∧
        (∀ t, r.getLast? = some t → nextStyle all t = none) := by
  intro fuel
  induction fuel with
  | zero => intro b acc r h; cases h
  | succ n ih =>
    intro b acc r h
    simp only [walkBases] at h
    by_cases hb : acc.any (fun s => s.id == b.id) = true
    · rw [if_pos hb] at h; cases h
    · rw [if_neg hb] at h
      cases hnext : nextStyle all b with
      | none =>
        rw [hnext] at h
        simp only [Except.ok.injEq] at h
        subst h
        refine ⟨[b], rfl, rfl, List.chain'_singleton b, ?_⟩
        intro t ht
        rw [List.getLast?_concat] at ht
        simp only [Option.some.injEq] at ht
        exact ht ▸ hnext
      | some b2 =>
        rw [hnext] at h
        obtain ⟨tail, htail, hhead, hchain, hlast⟩ := ih b2 (acc ++ [b]) r h
        refine ⟨b :: tail, by simpa using htail, rfl, ?_, hlast⟩
        cases tail with
        | nil => cases hhead
        | cons t ts =>
          simp only [List.head?_cons, Option.some.injEq] at hhead
          subst hhead
          exact List.chain'_cons.2 ⟨hnext, hchain⟩

/-- If the iteration over the style dict succeeds, every produced entry is
either carried over from the accumulator or the successful walk of a dict
entry. -/
theorem resolveBases_go_mem (all : List (String × Style)) :
    ∀ (rest : List (String × Style)) (acc chains : List (String × List Style)),
      resolveBases.go all rest acc = .ok chains →
      ∀ e ∈ chains, e ∈ acc ∨
        ∃ style, (e.1, style) ∈ rest ∧
          walkBases all (all.length + 1) style [] = .ok e.2 := by
  intro rest
  induction rest with
  | nil =>
    intro acc chains h e he
    simp only [resolveBases.go, Except.ok.injEq] at h
    subst h
    exact Or.inl he
  | cons p ps ih =>
    intro acc chains h e he
    obtain ⟨sid, style⟩ := p
    simp only [resolveBases.go] at h
    cases hw : walkBases all (all.length + 1) style [] with
    | error err => rw [hw] at h; cases h
    | ok bases =>
      rw [hw] at h
      rcases ih (acc ++ [(sid, bases)]) chains h e he with hmem | ⟨st, hst, hwst⟩
      · rcases List.mem_append.1 hmem with h' | h'
        · exact Or.inl h'
        · simp only [List.mem_singleton] at h'
          subst h'
          exact Or.inr ⟨style, List.mem_cons_self _ _, hw⟩
      · exact Or.inr ⟨st, List.mem_cons_of_mem _ hst, hwst⟩

/-- C9 (amended): after successful style resolution, each entry
`(sid, bases)` of the chain table satisfies: `bases[0]` is the style
registered under `sid`, each `bases[i+1]` is the known style named by
`bases[i].base_style`, and the final entry's parent reference is
*unresolvable* — its `base_style` is either `None` or names no registered
style (it need not be a style with no parent at all). -/
theorem c9_chain_structure_amended (style_data : List Style)
    (chains : List (String × List Style))
    (h : resolveBases style_data = .ok chains) :
    ∀ sid bases, (sid, bases) ∈ chains →
      bases.head? = dictFind (buildAllStyles style_data) sid ∧
      List.Chain'
        (fun x y => nextStyle (buildAllStyles style_data) x = some y)
        bases ∧
      (∀ t, bases.getLast? = some t →
        nextStyle (buildAllStyles style_data) t = none) := by
  intro sid bases hmem
  simp only [resolveBases] at h
  rcases resolveBases_go_mem (buildAllStyles style_data) _ [] chains h
      (sid, bases) hmem with h' | ⟨style, hst, hw⟩
  · cases h'
  · obtain ⟨tail, htail, hhead, hchain, hlast⟩ :=
      walkBases_ok_chain (buildAllStyles style_data) _ style [] bases hw
    simp only [List.nil_append] at htail
    subst htail
    refine ⟨?_, hchain, hlast⟩
    rw [hhead, dictFind_of_mem_nodup _ (buildAllStyles_nodupKeys style_data)
      sid style hst]

theorem c9_chain_structure_amended_witness :
    resolveBases c2styles =
      .ok [("root", [⟨"root", none⟩]),
           ("mid", [⟨"mid", some "root"⟩, ⟨"root", none⟩]),
           ("leaf", [⟨"leaf", some "mid"⟩, ⟨"mid", some "root"⟩,
             ⟨"root", none⟩])] ∧
    ([(⟨"leaf", some "mid"⟩ : Style), ⟨"mid", some "root"⟩,
      ⟨"root", none⟩].head? =
      dictFind (buildAllStyles c2styles) "leaf") ∧
    (∀ t, ([(⟨"leaf", some "mid"⟩ : Style), ⟨"mid", some "root"⟩,
        ⟨"root", none⟩].getLast? = some t) →
      nextStyle (buildAllStyles c2styles) t = none) := by
  have h := c9_chain_structure_amended c2styles
    [("root", [⟨"root", none⟩]),
     ("mid", [⟨"mid", some "root"⟩, ⟨"root", none⟩]),
     ("leaf", [⟨"leaf", some "mid"⟩, ⟨"mid", some "root"⟩, ⟨"root", none⟩])]
    rfl "leaf"
    [⟨"leaf", some "mid"⟩, ⟨"mid", some "root"⟩, ⟨"root", none⟩]
    (by decide)
  exact ⟨rfl, h.1, h.2.2⟩

theorem iterNext_one (all : List (String × Style)) (s : Style) :
    iterNext all 1 s = nextStyle all s := by
  simp only [iterNext]
  cases nextStyle all s <;> rfl

theorem iterNext_add (all : List (String × Style)) :
    ∀ (a b : Nat) (s : Style),
      iterNext all (a + b) s =
        (iterNext all a s).bind (fun t => iterNext all b t) := by
  intro a
  induction a with
  | zero => intro b s; simp [iterNext]
  | succ n ih =>
    intro b s
    rw [Nat.succ_add]
    simp only [iterNext]
    cases nextStyle all s with
    | none => rfl
    | some t => exact ih b t

theorem iterNext_cyclic_total (all : List (String × Style)) (b : Style)
    (n : Nat) (hn : 0 < n) (hcyc : iterNext all n b = some b) :
    ∀ k, iterNext all k b ≠ none := by
  have hmul : ∀ m, iterNext all (m * n) b = some b := by
    intro m
    induction m with
    | zero => simp [iterNext]
    | succ j ih =>
      rw [Nat.succ_mul, iterNext_add all (j * n) n b, ih]
      exact hcyc
  intro k hk
  have hle : k ≤ k * n := Nat.le_mul_of_pos_right k hn
  have : iterNext all (k + (k * n - k)) b = none := by
    rw [iterNext_add all k _ b, hk]
    rfl
  rw [Nat.add_sub_cancel' hle] at this
  rw [hmul k] at this
  cases this

/-- On a path where every parent reference stays resolvable forever (the
situation a reference cycle creates), the walk can never return a chain. -/
theorem walkBases_not_ok (all : List (String × Style)) :
    ∀ (fuel : Nat) (b : Style) (acc : List Style),
      (∀ k, iterNext all k b ≠ none) →
      ∀ r, walkBases all fuel b acc ≠ .ok r := by
  intro fuel
  induction fuel with
  | zero => intro b acc _ r h; cases h
  | succ n ih =>
    intro b acc hinf r
    simp only [walkBases]
    by_cases hb : acc.any (fun s => s.id == b.id) = true
    · rw [if_pos hb]; intro h; cases h
    · rw [if_neg hb]
      cases hnext : nextStyle all b with
      | none =>
        exact absurd (by rw [iterNext_one]; exact hnext) (hinf 1)
      | some b2 =>
        refine ih b2 (acc ++ [b]) ?_ r
        intro k hk
        refine hinf (1 + k) ?_
        rw [iterNext_add all 1 k b, iterNext_one, hnext]
        exact hk

theorem mem_values_entry (all : List (String × Style))
    (hkv : ∀ e ∈ all, e.2.id = e.1) (x : Style)
    (hx : x ∈ all.map Prod.snd) : (x.id, x) ∈ all := by
  simp only [List.mem_map] at hx
  obtain ⟨e, he, hex⟩ := hx
  have hk := hkv e he
  have : e = (x.id, x) := by
    cases e
    simp only [Prod.mk.injEq]
    subst hex
    exact ⟨hk.symm, rfl⟩
  exact this ▸ he

theorem value_eq_of_id_eq (all : List (String × Style))
    (hkv : ∀ e ∈ all, e.2.id = e.1)
    (hnd : (all.map Prod.fst).Nodup) (x b : Style)
    (hx : x ∈ all.map Prod.snd) (hb : b ∈ all.map Prod.snd)
    (hid : x.id = b.id) : x = b := by
  have h1 := dictFind_of_mem_nodup all hnd x.id x (mem_values_entry all hkv x hx)
  have h2 := dictFind_of_mem_nodup all hnd b.id b (mem_values_entry all hkv b hb)
  rw [hid] at h1
  rw [h1] at h2
  exact Option.some.inj h2

/-- Under acyclicity, the walk from any registered style returns a chain:
the visited list never repeats a style. -/
theorem walkBases_acyclic_ok (all : List (String × Style))
    (hkv : ∀ e ∈ all, e.2.id = e.1)
    (hnd : (all.map Prod.fst).Nodup) (hacyc : Acyclic all) :
    ∀ (fuel : Nat) (b : Style) (acc : List Style),
      b ∈ all.map Prod.snd → freeCount all acc < fuel →
      (∀ x ∈ acc, x ∈ all.map Prod.snd ∧
        ∃ m, 0 < m ∧ iterNext all m x = some b) →
      ∃ r, walkBases all fuel b acc = .ok r := by
  intro fuel
  induction fuel with
  | zero => intro b acc _ hlt _; omega
  | succ n ih =>
    intro b acc hbval hlt hacc
    have hbkey : b.id ∈ all.map Prod.fst :=
      List.mem_map_of_mem Prod.fst (mem_values_entry all hkv b hbval)
    have hany : acc.any (fun s => s.id == b.id) = false := by
      by_contra hc
      simp only [Bool.not_eq_false, List.any_eq_true] at hc
      obtain ⟨x, hxacc, hxid⟩ := hc
      obtain ⟨hxval, m, hm, hreach⟩ := hacc x hxacc
      have hxb : x = b :=
        value_eq_of_id_eq all hkv hnd x b hxval hbval (by simpa using hxid)
      subst hxb
      exact hacyc x hxval m hm hreach
    simp only [walkBases]
    rw [if_neg (by simp [hany])]
    cases hnext : nextStyle all b with
    | none => exact ⟨acc ++ [b], rfl⟩
    | some b2 =>
      have hb2val : b2 ∈ all.map Prod.snd :=
        List.mem_map_of_mem Prod.snd (nextStyle_mem all b b2 hkv hnext)
      have hdec := freeCount_append all acc b hbkey hany
      refine ih b2 (acc ++ [b]) hb2val (by omega) ?_
      intro x hx
      rcases List.mem_append.1 hx with hxa | hxb
      · obtain ⟨hxval, m, hm, hreach⟩ := hacc x hxa
        refine ⟨hxval, m + 1, by omega, ?_⟩
        rw [iterNext_add all m 1 x, hreach]
        show iterNext all 1 b = some b2
        rw [iterNext_one]
        exact hnext
      · simp only [List.mem_singleton] at hxb
        subst hxb
        exact ⟨hbval, 1, Nat.one_pos, by rw [iterNext_one]; exact hnext⟩

theorem freeCount_nil_lt (all : List (String × Style)) :
    freeCount all [] < all.length + 1 := by
  have h1 : freeCount all [] ≤ (all.map Prod.fst).length :=
    List.length_filter_le _ _
  simp only [List.length_map] at h1
  omega

theorem resolveBases_go_shape (all : List (String × Style))
    (hkv : ∀ e ∈ all, e.2.id = e.1) :
    ∀ (rest : List (String × Style)) (acc : List (String × List Style)),
      (∀ e ∈ rest, e ∈ all) →
      (∃ chains, resolveBases.go all rest acc = .ok chains) ∨
      (∃ i, resolveBases.go all rest acc = .error (.loopInBases i)) := by
  intro rest
  induction rest with
  | nil => intro acc _; exact Or.inl ⟨acc, rfl⟩
  | cons p ps ih =>
    intro acc hsub
    obtain ⟨sid, style⟩ := p
    have hstyle : style ∈ all.map Prod.snd := by
      have := hsub (sid, style) (List.mem_cons_self _ _)
      exact List.mem_map_of_mem Prod.snd this
    have hkey : style.id ∈ all.map Prod.fst :=
      List.mem_map_of_mem Prod.fst (mem_values_entry all hkv style hstyle)
    simp only [resolveBases.go]
    rcases walkBases_shape all (all.length + 1) style [] with
      ⟨r, hr⟩ | ⟨i, hi⟩ | hf
    · rw [hr]
      exact ih (acc ++ [(sid, r)]) (fun e he => hsub e (List.mem_cons_of_mem _ he))
    · rw [hi]
      exact Or.inr ⟨i, rfl⟩
    · exact absurd hf
        (walkBases_no_fuelOut all hkv (all.length + 1) style [] hkey
          (freeCount_nil_lt all))

theorem resolveBases_go_ok_walks (all : List (String × Style)) :
    ∀ (rest : List (String × Style)) (acc chains : List (String × List Style)),
      resolveBases.go all rest acc = .ok chains →
      ∀ e ∈ rest, ∃ bases,
        walkBases all (all.length + 1) e.2 [] = .ok bases := by
  intro rest
  induction rest with
  | nil => intro acc chains _ e he; cases he
  | cons p ps ih =>
    intro acc chains h e he
    obtain ⟨sid, style⟩ := p
    simp only [resolveBases.go] at h
    cases hw : walkBases all (all.length + 1) style [] with
    | error err => rw [hw] at h; cases h
    | ok bases =>
      rw [hw] at h
      rcases List.mem_cons.1 he with h' | h'
      · subst h'
        exact ⟨bases, hw⟩
      · exact ih _ chains h e h'

theorem resolveBases_go_all_ok (all : List (String × Style)) :
    ∀ (rest : List (String × Style)) (acc : List (String × List Style)),
      (∀ e ∈ rest, ∃ bases,
        walkBases all (all.length + 1) e.2 [] = .ok bases) →
      ∃ chains, resolveBases.go all rest acc = .ok chains ∧
        (∀ e ∈ acc, e ∈ chains) ∧
        (∀ e ∈ rest, ∃ bases, (e.1, bases) ∈ chains) := by
  intro rest
  induction rest with
  | nil =>
    intro acc _
    exact ⟨acc, rfl, fun e he => he, fun e he => absurd he (by simp)⟩
  | cons p ps ih =>
    intro acc hall
    obtain ⟨sid, style⟩ := p
    obtain ⟨bases, hw⟩ := hall (sid, style) (List.mem_cons_self _ _)
    obtain ⟨chains, hgo, hacc, hrest⟩ :=
      ih (acc ++ [(sid, bases)])
        (fun e he => hall e (List.mem_cons_of_mem _ he))
    refine ⟨chains, ?_, ?_, ?_⟩
    · simp only [resolveBases.go]
      rw [hw]
      exact hgo
    · intro e he
      exact hacc e (List.mem_append_left _ he)
    · intro e he
      rcases List.mem_cons.1 he with h' | h'
      · subst h'
        exact ⟨bases, hacc (sid, bases)
          (List.mem_append_right _ (List.mem_singleton_self _))⟩
      · exact hrest e h'

/-- C4: resolution of the style ancestor chains always terminates (the fuel
bound is never hit); on every style graph whose resolvable `base_style`
references form a cycle it fails fatally with the `Loop in bases` error
naming a style of the loop; and on every acyclic style graph it terminates
normally with a chain for each registered style. -/
theorem c4_cycle_detection (style_data : List Style) :
    resolveBases style_data ≠ .error .fuelOut ∧
    (¬ Acyclic (buildAllStyles style_data) →
      ∃ sid, resolveBases style_data = .error (.loopInBases sid)) ∧
    (Acyclic (buildAllStyles style_data) →
      ∃ chains, resolveBases style_data = .ok chains ∧
        ∀ e ∈ buildAllStyles style_data,
          ∃ bases, (e.1, bases) ∈ chains) := by
  have hkv := buildAllStyles_idkey style_data
  have hnd := buildAllStyles_nodupKeys style_data
  have hshape := resolveBases_go_shape (buildAllStyles style_data) hkv
    (buildAllStyles style_data) [] (fun e he => he)
  refine ⟨?_, ?_, ?_⟩
  · simp only [resolveBases]
    rcases hshape with ⟨chains, hc⟩ | ⟨i, hi⟩
    · rw [hc]; intro h; cases h
    · rw [hi]; intro h; cases h
  · intro hnot
    rw [Acyclic] at hnot
    push_neg at hnot
    obtain ⟨s, hs, n, hn, hcyc⟩ := hnot
    simp only [resolveBases]
    rcases hshape with ⟨chains, hc⟩ | ⟨i, hi⟩
    · exfalso
      have hent := mem_values_entry _ hkv s hs
      obtain ⟨bases, hw⟩ := resolveBases_go_ok_walks _ _ [] chains hc
        (s.id, s) hent
      exact walkBases_not_ok _ _ s []
        (iterNext_cyclic_total _ s n hn hcyc) bases hw
    · rw [hi]
      exact ⟨i, rfl⟩
  · intro hacyc
    have hall : ∀ e ∈ buildAllStyles style_data, ∃ bases,
        walkBases (buildAllStyles style_data)
          ((buildAllStyles style_data).length + 1) e.2 [] = .ok bases := by
      intro e he
      exact walkBases_acyclic_ok _ hkv hnd hacyc _ e.2 []
        (List.mem_map_of_mem Prod.snd he) (freeCount_nil_lt _)
        (fun x hx => absurd hx (by simp))
    obtain ⟨chains, hgo, -, hrest⟩ :=
      resolveBases_go_all_ok _ _ [] hall
    refine ⟨chains, ?_, hrest⟩
    simp only [resolveBases]
    exact hgo

theorem c4_cycle_detection_witness :
    (∃ sid, resolveBases c4cyclic = .error (.loopInBases sid)) ∧
    (∃ chains, resolveBases [⟨"r", none⟩] = .ok chains ∧
      ∀ e ∈ buildAllStyles [⟨"r", none⟩],
        ∃ bases, (e.1, bases) ∈ chains) := by
  constructor
  · refine (c4_cycle_detection c4cyclic).2.1 ?_
    intro h
    have h2 := h ⟨"x", some "y"⟩ (by decide) 2 (by decide)
    exact h2 (by decide)
  · refine (c4_cycle_detection [⟨"r", none⟩]).2.2 ?_
    intro s hs n hn
    have hsv : s = ⟨"r", none⟩ := by
      simpa [buildAllStyles, dictSet] using hs
    subst hsv
    cases n with
    | zero => omega
    | succ m => simp [iterNext, nextStyle]

theorem find?_congr_mem {α : Type} (l : List α) (p q : α → Bool)
    (h : ∀ x ∈ l, p x = q x) : l.find? p = l.find? q := by
  induction l with
  | nil => rfl
  | cons a t ih =>
    simp only [List.find?]
    rw [h a (List.mem_cons_self a t)]
    cases q a with
    | true => rfl
    | false => exact ih (fun x hx => h x (List.mem_cons_of_mem a hx))

theorem fillStyle_shape (dvs : Option (List (String × Slot))) (ds : String)
    (styles : List (String × Slot)) (sty : String) (bases : List Style)
    (out : List (String × Slot))
    (h : fillStyle dvs ds styles sty bases = .ok out) :
    ∃ slot, out = dictSet styles sty slot := by
  simp only [fillStyle] at h
  cases hf : bases.find? (fun b => dictMem styles b.id) with
  | some b =>
    rw [hf] at h
    dsimp only at h
    cases hd : dictFind styles b.id with
    | none => rw [hd] at h; cases h
    | some slot =>
      rw [hd] at h
      simp only [Except.ok.injEq] at h
      exact ⟨slot, h.symm⟩
  | none =>
    rw [hf] at h
    dsimp only at h
    cases dvs with
    | none =>
      dsimp only at h
      cases hd : dictFind styles ds with
      | none => rw [hd] at h; cases h
      | some slot =>
        rw [hd] at h
        simp only [Except.ok.injEq] at h
        exact ⟨slot, h.symm⟩
    | some d =>
      dsimp only at h
      cases hd : dictFind d sty with
      | none => rw [hd] at h; cases h
      | some slot =>
        rw [hd] at h
        simp only [Except.ok.injEq] at h
        exact ⟨slot, h.symm⟩

theorem fillVersion_preserves (dvs : Option (List (String × Slot)))
    (ds : String) :
    ∀ (all_bases : List (String × List Style))
      (styles final : List (String × Slot)),
      fillVersion dvs ds all_bases styles = .ok final →
      ∀ k, dictMem styles k = true → dictFind final k = dictFind styles k := by
  intro all_bases
  induction all_bases with
  | nil =>
    intro styles final h k hk
    simp only [fillVersion, Except.ok.injEq] at h
    rw [h]
  | cons e rest ih =>
    intro styles final h k hk
    obtain ⟨sty, bases⟩ := e
    simp only [fillVersion] at h
    by_cases hmem : dictMem styles sty = true
    · rw [if_pos hmem] at h
      exact ih styles final h k hk
    · rw [if_neg hmem] at h
      cases hf : fillStyle dvs ds styles sty bases with
      | error err => rw [hf] at h; cases h
      | ok out =>
        rw [hf] at h
        obtain ⟨slot, hout⟩ := fillStyle_shape dvs ds styles sty bases out hf
        have hkne : (k == sty) = false := by
          rw [beq_eq_false_iff_ne]
          intro hks
          exact hmem (hks ▸ hk)
        have hkmem : dictMem out k = true := by
          rw [hout, dictMem_dictSet]
          simp [hk]
        rw [ih out final h k hkmem, hout,
          dictFind_dictSet_ne _ _ _ _ hkne]

theorem fillVersion_priority_aux (dvs : Option (List (String × Slot)))
    (ds : String) (all_bases : List (String × List Style)) (s : String)
    (bases : List Style) (styles0 : List (String × Slot))
    (hstat : ∀ t bt, (t, bt) ∈ all_bases → dictMem styles0 t = false →
      t ≠ s → ∀ b ∈ bases, b.id ≠ t)
    (hdefst : dvs = none → dictMem styles0 ds = true) :
    ∀ (rest : List (String × List Style)) (cur final : List (String × Slot)),
      (∀ e ∈ rest, e ∈ all_bases) →
      rest.find? (fun e => e.1 == s) = some (s, bases) →
      (∀ k, dictMem cur k = true → dictMem styles0 k = true ∨
        (k ≠ s ∧ dictMem styles0 k = false ∧ ∃ bt, (k, bt) ∈ all_bases)) →
      (∀ k, dictMem styles0 k = true → dictFind cur k = dictFind styles0 k) →
      dictMem cur s = false →
      fillVersion dvs ds rest cur = .ok final →
      (∀ b, bases.find? (fun b => dictMem styles0 b.id) = some b →
        dictFind final s = dictFind styles0 b.id) ∧
      (bases.find? (fun b => dictMem styles0 b.id) = none → dvs = none →
        dictFind final s = dictFind styles0 ds) ∧
      (∀ d, bases.find? (fun b => dictMem styles0 b.id) = none →
        dvs = some d → dictFind final s = dictFind d s) := by
  intro rest
  induction rest with
  | nil =>
    intro cur final _ hfind _ _ _ _
    cases hfind
  | cons e ps ih =>
    intro cur final hsub hfind hcur1 hcur2 hcur3 hrun
    obtain ⟨t, bt⟩ := e
    by_cases hts : (t == s) = true
    · have hts' : t = s := by simpa using hts
      subst hts'
      simp only [List.find?, hts] at hfind
      simp only [Option.some.injEq, Prod.mk.injEq] at hfind
      obtain ⟨-, hbt⟩ := hfind
      rw [hbt] at hrun
      -- the style map restricted to the chain agrees with the original map
      have hpt : ∀ b ∈ bases, dictMem cur b.id = dictMem styles0 b.id := by
        intro b hb
        by_cases hm0 : dictMem styles0 b.id = true
        · have hcm : dictMem cur b.id = true := by
            rw [dictMem_eq_isSome, hcur2 b.id hm0, ← dictMem_eq_isSome]
            exact hm0
          rw [hcm, hm0]
        · have hm0' : dictMem styles0 b.id = false := by simpa using hm0
          rw [hm0']
          cases hc : dictMem cur b.id with
          | false => rfl
          | true =>
            rcases hcur1 b.id hc with h1 | ⟨hne, h0, bt', hmem'⟩
            · exact absurd h1 hm0
            · exact absurd rfl (hstat b.id bt' hmem' h0 hne b hb)
      have hfcongr : bases.find? (fun b => dictMem cur b.id) =
          bases.find? (fun b => dictMem styles0 b.id) :=
        find?_congr_mem bases _ _ hpt
      simp only [fillVersion] at hrun
      rw [if_neg (by simp [hcur3])] at hrun
      cases hf : fillStyle dvs ds cur t bases with
      | error err => rw [hf] at hrun; cases hrun
      | ok out =>
        rw [hf] at hrun
        dsimp only at hrun
        simp only [fillStyle, hfcongr] at hf
        cases hb0 : bases.find? (fun b => dictMem styles0 b.id) with
        | some b =>
          rw [hb0] at hf
          dsimp only at hf
          have hbmem : dictMem styles0 b.id = true := by
            have := List.find?_some hb0
            simpa using this
          refine ⟨?_, ?_, ?_⟩
          · intro b' hb'
            simp only [Option.some.injEq] at hb'
            subst hb'
            cases hd : dictFind styles0 b.id with
            | none =>
              rw [dictMem_eq_isSome, hd] at hbmem
              cases hbmem
            | some slot =>
              rw [hcur2 b.id hbmem, hd] at hf
              simp only [Except.ok.injEq] at hf
              subst hf
              have hout : dictMem (dictSet cur t slot) t = true := by
                rw [dictMem_dictSet]; simp
              rw [fillVersion_preserves dvs ds ps _ final hrun t hout,
                dictFind_dictSet_self]
          · intro hnone
            cases hnone
          · intro d hnone _
            cases hnone
        | none =>
          rw [hb0] at hf
          dsimp only at hf
          refine ⟨?_, ?_, ?_⟩
          · intro b' hb'
            cases hb'
          · intro _ hdvs
            subst hdvs
            dsimp only at hf
            have hdm := hdefst rfl
            cases hd : dictFind styles0 ds with
            | none =>
              rw [dictMem_eq_isSome, hd] at hdm
              cases hdm
            | some slot =>
              rw [hcur2 ds hdm, hd] at hf
              simp only [Except.ok.injEq] at hf
              subst hf
              have hout : dictMem (dictSet cur t slot) t = true := by
                rw [dictMem_dictSet]; simp
              rw [fillVersion_preserves _ _ ps _ final hrun t hout,
                dictFind_dictSet_self]
          · intro d _ hdvs
            subst hdvs
            dsimp only at hf
            cases hd : dictFind d t with
            | none => rw [hd] at hf; cases hf
            | some slot =>
              rw [hd] at hf
              simp only [Except.ok.injEq] at hf
              subst hf
              have hout : dictMem (dictSet cur t slot) t = true := by
                rw [dictMem_dictSet]; simp
              rw [fillVersion_preserves _ _ ps _ final hrun t hout,
                dictFind_dictSet_self]
    · have hts' : t ≠ s := by simpa using hts
      simp only [List.find?, hts] at hfind
      simp only [fillVersion] at hrun
      by_cases hmem : dictMem cur t = true
      · rw [if_pos hmem] at hrun
        exact ih cur final
          (fun e he => hsub e (List.mem_cons_of_mem _ he))
          hfind hcur1 hcur2 hcur3 hrun
      · rw [if_neg hmem] at hrun
        cases hf : fillStyle dvs ds cur t bt with
        | error err => rw [hf] at hrun; cases hrun
        | ok out =>
          rw [hf] at hrun
          dsimp only at hrun
          obtain ⟨slot, hout⟩ := fillStyle_shape dvs ds cur t bt out hf
          have h0t : dictMem styles0 t = false := by
            by_contra hc
            simp only [Bool.not_eq_false] at hc
            have : dictMem cur t = true := by
              rw [dictMem_eq_isSome, hcur2 t hc, ← dictMem_eq_isSome]
              exact hc
            exact hmem this
          refine ih out final
            (fun e he => hsub e (List.mem_cons_of_mem _ he)) hfind
            ?_ ?_ ?_ hrun
          · intro k hk
            rw [hout, dictMem_dictSet] at hk
            by_cases htk : (t == k) = true
            · have htk' : t = k := by simpa using htk
              subst htk'
              exact Or.inr ⟨hts', h0t,
                ⟨bt, hsub (t, bt) (List.mem_cons_self _ _)⟩⟩
            · rw [show (t == k) = false by simpa using htk] at hk
              simp only [Bool.false_or] at hk
              exact hcur1 k hk
          · intro k hk0
            have hkt : (k == t) = false := by
              rw [beq_eq_false_iff_ne]
              intro hkt'
              rw [hkt'] at hk0
              rw [hk0] at h0t
              cases h0t
            rw [hout, dictFind_dictSet_ne _ _ _ _ hkt]
            exact hcur2 k hk0
          · rw [hout, dictMem_dictSet,
              show (t == s) = false by simpa using hts, hcur3]
            rfl

/-- C2: the style-fill loop of `setup_style_tree` resolves a style `s`
with no definition of its own in a version by the fixed priority: an
exactly-matching definition is kept untouched; otherwise the definition of
the first (nearest) entry of `s`'s resolved base chain that is defined in
the version's style map is copied; otherwise, in the default version, the
version's own default-style slot; otherwise (non-default versions) the
default version's already-resolved slot for `s`.  The hypothesis `hstat`
pins the claim's reading that "defined in the style map" refers to the
declared style map: no strict ancestor of `s` may itself be a gap filled
earlier in the same loop (the map evolves while the loop runs). -/
theorem c2_fill_priority (dvs : Option (List (String × Slot))) (ds : String)
    (all_bases : List (String × List Style)) (s : String)
    (bases : List Style) (styles0 final : List (String × Slot))
    (hrun : fillVersion dvs ds all_bases styles0 = .ok final)
    (hentry : all_bases.find? (fun e => e.1 == s) = some (s, bases))
    (hstat : ∀ t bt, (t, bt) ∈ all_bases → dictMem styles0 t = false →
      t ≠ s → ∀ b ∈ bases, b.id ≠ t)
    (hdefst : dvs = none → dictMem styles0 ds = true)
    (hmiss : dictMem styles0 s = false) :
    (∀ k, dictMem styles0 k = true →
      dictFind final k = dictFind styles0 k) ∧
    (∀ b, bases.find? (fun b => dictMem styles0 b.id) = some b →
      dictFind final s = dictFind styles0 b.id) ∧
    (bases.find? (fun b => dictMem styles0 b.id) = none → dvs = none →
      dictFind final s = dictFind styles0 ds) ∧
    (∀ d, bases.find? (fun b => dictMem styles0 b.id) = none →
      dvs = some d → dictFind final s = dictFind d s) := by
  have haux := fillVersion_priority_aux dvs ds all_bases s bases styles0
    hstat hdefst all_bases styles0 final (fun e he => he) hentry
    (fun k hk => Or.inl hk) (fun k _ => rfl) hmiss hrun
  exact ⟨fun k hk =>
    fillVersion_preserves dvs ds all_bases styles0 final hrun k hk,
    haux.1, haux.2.1, haux.2.2⟩

theorem c2_fill_priority_witness :
    resolveBases c2styles =
      .ok [("root", [⟨"root", none⟩]),
           ("mid", [⟨"mid", some "root"⟩, ⟨"root", none⟩]),
           ("leaf", [⟨"leaf", some "mid"⟩, ⟨"mid", some "root"⟩,
             ⟨"root", none⟩])] ∧
    fillVersion none "root"
      [("root", [⟨"root", none⟩]),
       ("mid", [⟨"mid", some "root"⟩, ⟨"root", none⟩]),
       ("leaf", [⟨"leaf", some "mid"⟩, ⟨"mid", some "root"⟩,
         ⟨"root", none⟩])] c2styles0 =
      .ok [("root", .variant (mkVar "vroot" 0)),
           ("mid", .variant (mkVar "vmid" 10)),
           ("leaf", .variant (mkVar "vmid" 10))] ∧
    dictFind [("root", Slot.variant (mkVar "vroot" 0)),
      ("mid", .variant (mkVar "vmid" 10)),
      ("leaf", .variant (mkVar "vmid" 10))] "leaf" =
      some (.variant (mkVar "vmid" 10)) ∧
    dictFind c2styles0 "mid" = some (.variant (mkVar "vmid" 10)) := by
  have h := c2_fill_priority none "root"
    [("root", [⟨"root", none⟩]),
     ("mid", [⟨"mid", some "root"⟩, ⟨"root", none⟩]),
     ("leaf", [⟨"leaf", some "mid"⟩, ⟨"mid", some "root"⟩,
       ⟨"root", none⟩])] "leaf"
    [⟨"leaf", some "mid"⟩, ⟨"mid", some "root"⟩, ⟨"root", none⟩]
    c2styles0
    [("root", .variant (mkVar "vroot" 0)),
     ("mid", .variant (mkVar "vmid" 10)),
     ("leaf", .variant (mkVar "vmid" 10))]
    rfl (by decide)
    (by
      intro t bt hmem h0 hts
      simp only [List.mem_cons, List.not_mem_nil, or_false] at hmem
      rcases hmem with h | h | h
      · rw [Prod.ext_iff] at h
        obtain ⟨ht, -⟩ := h
        subst ht
        exact absurd h0 (by decide)
      · rw [Prod.ext_iff] at h
        obtain ⟨ht, -⟩ := h
        subst ht
        exact absurd h0 (by decide)
      · rw [Prod.ext_iff] at h
        obtain ⟨ht, -⟩ := h
        subst ht
        exact absurd rfl hts)
    (fun _ => by decide) (by decide)
  have h2 := h.2.1 ⟨"mid", some "root"⟩ (by decide)
  exact ⟨rfl, rfl, h2.trans (by decide), by decide⟩
